import Mathlib

/-!
Verification of the tiered caching subsystem (`src/core/cache.py`).

The Python source is shallowly embedded: `CacheEntry` is a structure,
`MemoryCache` carries its insertion-ordered dict as an association list
(Python dicts iterate in insertion order; `del` + reinsert moves a key to
the end, which the list model reproduces with erase + append), the
persistent tier's cache directory is an association list from file name to
file content, and clock reads (`time.time()`) become an explicit `now : Nat`
parameter.  Python's `None` is the distinguished `Value.vnone`: the source
types its lookups as `Optional[Any]` and tests `value is not None`, so a
stored `None` and a miss are one and the same result.
-/

namespace FRPCache

/-- Python runtime values as stored in the cache (`value: Any`).  `vnone`
models Python `None`, which doubles as the miss result. -/
inductive Value where
  | vnone
  | vint (n : Int)
  | vstr (s : String)
  | vbool (b : Bool)
deriving DecidableEq

/-- `value is None` check. -/
def Value.isNone : Value → Bool
  | .vnone => true
  | _ => false

/-- `CacheEntry` dataclass: key, value, creation timestamp, ttl (seconds,
`<= 0` never expires), access counter, last-access timestamp. -/
structure CacheEntry where
  key : String
  value : Value
  timestamp : Nat
  ttl : Int
  access_count : Nat
  last_access : Nat
deriving DecidableEq

/-- `CacheEntry.is_expired`: `ttl <= 0` never expires, otherwise expired
iff `now - timestamp > ttl`. -/
def CacheEntry.is_expired (e : CacheEntry) (now : Nat) : Bool :=
  if e.ttl ≤ 0 then false
  else decide ((now : Int) - (e.timestamp : Int) > e.ttl)

/-- `entry.access()`: bump `access_count`, stamp `last_access`. -/
def CacheEntry.bumpAccess (e : CacheEntry) (now : Nat) : CacheEntry :=
  { e with access_count := e.access_count + 1, last_access := now }

/-! ### Association-list primitives

Python's `dict` (and the cache directory's file map) is modelled as a
`List (String × α)` in insertion order with unique keys. -/

/-- First binding for a key (`dict.get`). -/
def assocFind {α : Type} : List (String × α) → String → Option α
  | [], _ => none
  | p :: rest, k => if p.1 = k then some p.2 else assocFind rest k

/-- Remove the first binding for a key (`del d[k]` / `unlink`). -/
def assocErase {α : Type} : List (String × α) → String → List (String × α)
  | [], _ => []
  | p :: rest, k => if p.1 = k then rest else p :: assocErase rest k

/-- Replace the first binding in place, or append when absent (in-place
entry mutation; file overwrite). -/
def assocSet {α : Type} : List (String × α) → String → α → List (String × α)
  | [], k, v => [(k, v)]
  | p :: rest, k, v => if p.1 = k then (k, v) :: rest else p :: assocSet rest k v

/-- Keys of the map, in iteration order. -/
def assocKeys {α : Type} (s : List (String × α)) : List String :=
  s.map Prod.fst

/-! ### MemoryCache -/

/-- `MemoryCache`: bounded dict of entries plus hit/miss/eviction/expiry
counters. -/
structure MemoryCache where
  max_size : Nat
  default_ttl : Int
  store : List (String × CacheEntry)
  hits : Nat
  misses : Nat
  evictions : Nat
  expires : Nat
deriving DecidableEq

/-- `MemoryCache.__init__`. -/
def MemoryCache.init (max_size : Nat) (default_ttl : Int) : MemoryCache :=
  ⟨max_size, default_ttl, [], 0, 0, 0, 0⟩

/-- `MemoryCache.get`: absent key is a miss; an expired entry is deleted,
counted under both `expires` and `misses`, and reported as a miss; a live
hit bumps the entry's access stats and returns its value. -/
def MemoryCache.get (mc : MemoryCache) (key : String) (now : Nat) :
    Value × MemoryCache :=
  match assocFind mc.store key with
  | none => (Value.vnone, { mc with misses := mc.misses + 1 })
  | some e =>
    if e.is_expired now then
      (Value.vnone, { mc with store := assocErase mc.store key,
                              expires := mc.expires + 1,
                              misses := mc.misses + 1 })
    else
      (e.value, { mc with store := assocSet mc.store key (e.bumpAccess now),
                          hits := mc.hits + 1 })

/-- `min(keys, key=last_access)`: fold keeping the current best, replacing
only on strictly smaller `last_access`, so the first minimum wins. -/
def selectLRU : String × CacheEntry → List (String × CacheEntry) → String × CacheEntry
  | best, [] => best
  | best, p :: rest =>
      selectLRU (if p.2.last_access < best.2.last_access then p else best) rest

/-- `MemoryCache._evict_lru`: no-op on an empty store, otherwise delete the
first entry attaining the minimal `last_access` and count an eviction. -/
def MemoryCache.evict_lru (mc : MemoryCache) : MemoryCache :=
  match mc.store with
  | [] => mc
  | p :: rest =>
      let victim := selectLRU p rest
      { mc with store := assocErase (p :: rest) victim.1,
                evictions := mc.evictions + 1 }

/-- `MemoryCache.set`: resolve the ttl default, delete any old entry for
the key, evict once if still at/over capacity, then insert a fresh entry
stamped `now` (dataclass `__post_init__` sets `last_access = timestamp`). -/
def MemoryCache.set (mc : MemoryCache) (key : String) (value : Value)
    (ttl : Option Int) (now : Nat) : MemoryCache :=
  let t := ttl.getD mc.default_ttl
  let mc1 := if (assocFind mc.store key).isSome then
               { mc with store := assocErase mc.store key }
             else mc
  let mc2 := if mc1.store.length ≥ mc1.max_size then mc1.evict_lru else mc1
  { mc2 with store := mc2.store ++ [(key, ⟨key, value, now, t, 0, now⟩)] }

/-- `MemoryCache.delete`: remove if present, report whether it was. -/
def MemoryCache.delete (mc : MemoryCache) (key : String) : Bool × MemoryCache :=
  if (assocFind mc.store key).isSome then
    (true, { mc with store := assocErase mc.store key })
  else (false, mc)

/-- `MemoryCache.clear`. -/
def MemoryCache.clear (mc : MemoryCache) : MemoryCache :=
  { mc with store := [] }

/-- `MemoryCache.cleanup_expired`: collect the keys of expired entries,
delete each, count each under `expires`, return how many were removed. -/
def MemoryCache.cleanup_expired (mc : MemoryCache) (now : Nat) :
    Nat × MemoryCache :=
  let expiredKeys := (mc.store.filter fun p => p.2.is_expired now).map Prod.fst
  (expiredKeys.length,
   { mc with store := expiredKeys.foldl (fun s k => assocErase s k) mc.store,
             expires := mc.expires + expiredKeys.length })

/-! ### PersistentCache

The cache directory is a map from file name to file content.  A file is
either a pickled entry dict (`FileData.good`, with `pickle` round-tripping
modelled as the identity on the entry) or undecodable bytes
(`FileData.corrupt`), on which `pickle.load` / `CacheEntry(**d)` raises. -/

/-- Content of one `*.cache` file. -/
inductive FileData where
  | good (e : CacheEntry)
  | corrupt
deriving DecidableEq

/-- The cache directory: file name to content, glob order. -/
abbrev FS := List (String × FileData)

/-- `PersistentCache._get_cache_file`: `md5(key).hexdigest() + ".cache"`,
modelled as an injective key-to-file-name map. -/
def cacheFileName (key : String) : String := key ++ ".cache"

/-- `PersistentCache` instance state: only configuration (directory and
default ttl); every entry lives on disk, here the explicit `FS`. -/
structure PersistentCache where
  default_ttl : Int
deriving DecidableEq

/-- `PersistentCache.get`: no file is a miss; an unreadable file is deleted
and reported as a miss (the `except` branch — no error escapes); an expired
file is deleted and reported as a miss; a live hit bumps the entry's access
stats, rewrites the file, and returns the stored value.  The instance
object holds no entry state, so the result depends only on the directory
contents: any instance opened on the same directory computes the same
answer. -/
def PersistentCache.get (fs : FS) (key : String) (now : Nat) : Value × FS :=
  let file := cacheFileName key
  match assocFind fs file with
  | none => (Value.vnone, fs)
  | some FileData.corrupt => (Value.vnone, assocErase fs file)
  | some (FileData.good e) =>
    if e.is_expired now then (Value.vnone, assocErase fs file)
    else
      (e.value, assocSet fs file (FileData.good (e.bumpAccess now)))

/-- `PersistentCache.set`: serialize a fresh entry stamped `now` to the
key's file, overwriting any prior content. -/
def PersistentCache.set (pc : PersistentCache) (fs : FS) (key : String)
    (value : Value) (ttl : Option Int) (now : Nat) : FS :=
  let t := ttl.getD pc.default_ttl
  assocSet fs (cacheFileName key) (FileData.good ⟨key, value, now, t, 0, now⟩)

/-- `PersistentCache.cleanup_expired`: walk every managed file; delete and
count expired ones; delete and count unreadable ones (the bare `except`
branch); keep the rest untouched. -/
def PersistentCache.cleanup_expired (fs : FS) (now : Nat) : Nat × FS :=
  match fs with
  | [] => (0, [])
  | (name, fd) :: rest =>
    let r := PersistentCache.cleanup_expired rest now
    match fd with
    | FileData.corrupt => (r.1 + 1, r.2)
    | FileData.good e =>
      if e.is_expired now then (r.1 + 1, r.2)
      else (r.1, (name, fd) :: r.2)

/-! ### CacheManager -/

/-- Tier selector (`CacheLevel` enum). -/
inductive CacheLevel where
  | memory_only
  | persistent_only
  | both
deriving DecidableEq

/-- `CacheManager` composes the two tiers; the persistent tier's disk state
is the explicit `fs`. -/
structure CacheManager where
  memory : MemoryCache
  persistent : PersistentCache
  fs : FS
deriving DecidableEq

/-- `CacheManager.__init__`: memory tier with default ttl 3600 s,
persistent tier with default ttl 86400 s, over a given directory state. -/
def CacheManager.init (memory_size : Nat) (fs : FS) : CacheManager :=
  ⟨MemoryCache.init memory_size 3600, ⟨86400⟩, fs⟩

/-- `CacheManager.get`: query memory first when the tier includes it and
return any non-`None` value; otherwise query persistent when the tier
includes it, promoting a hit into memory (with memory's default ttl, via
`memory_cache.set(key, value)`) only when the tier is `both`.  The third
component records whether the persistent tier was consulted at all. -/
def CacheManager.get (cm : CacheManager) (key : String) (level : CacheLevel)
    (now : Nat) : Value × CacheManager × Bool :=
  let m1 :=
    if level = CacheLevel.memory_only ∨ level = CacheLevel.both then
      let r := cm.memory.get key now
      (r.1, { cm with memory := r.2 })
    else (Value.vnone, cm)
  if m1.1.isNone = false then (m1.1, m1.2, false)
  else
    if level = CacheLevel.persistent_only ∨ level = CacheLevel.both then
      let r := PersistentCache.get m1.2.fs key now
      let cm2 := { m1.2 with fs := r.2 }
      if r.1.isNone = false then
        let cm3 := if level = CacheLevel.both then
                     { cm2 with memory := cm2.memory.set key r.1 none now }
                   else cm2
        (r.1, cm3, true)
      else (Value.vnone, cm2, true)
    else (Value.vnone, m1.2, false)

/-- `CacheManager.set`: write to every tier named by the selector. -/
def CacheManager.set (cm : CacheManager) (key : String) (value : Value)
    (ttl : Option Int) (level : CacheLevel) (now : Nat) : CacheManager :=
  let cm1 :=
    if level = CacheLevel.memory_only ∨ level = CacheLevel.both then
      { cm with memory := cm.memory.set key value ttl now }
    else cm
  if level = CacheLevel.persistent_only ∨ level = CacheLevel.both then
    { cm1 with fs := cm1.persistent.set cm1.fs key value ttl now }
  else cm1

/-! ### Memoization wrapper (`CacheManager.cached_function`)

The wrapper serializes `{function, args, kwargs}` with
`json.dumps(..., sort_keys=True, default=str)` and keys the cache by the
md5 of that string.  `default=str` makes most objects serializable, but
`json.dumps` still raises on some inputs (e.g. a circular reference), and
the wrapper installs no handler, so that exception reaches the caller
before the cache is touched.  Arguments are modelled by `PyObj`, with one
constructor for an argument `json.dumps` rejects. -/

/-- A Python argument value as seen by the key-derivation step. -/
inductive PyObj where
  | pint (n : Int)
  | pstr (s : String)
  | circular
deriving DecidableEq

/-- `json.dumps(..., default=str)` on one argument. -/
def serializeObj : PyObj → Except String String
  | .pint n => .ok (toString n)
  | .pstr s => .ok s
  | .circular => .error "Circular reference detected"

/-- Canonical serialization of the `key_data` dict (function name plus
arguments); fails iff some argument fails. -/
def serializeArgs (fname : String) (args : List PyObj) : Except String String :=
  match args.mapM serializeObj with
  | .error e => .error e
  | .ok parts => .ok (String.intercalate "," (fname :: parts))

/-- md5 hexdigest, modelled as an injective map on the serialized text. -/
def md5hex (s : String) : String := s

/-- The cache key the wrapper derives for one invocation. -/
def funcKey (s : String) : String := "func:" ++ md5hex s

/-- One invocation of the wrapped callable: derive the key (propagating
any serialization error with the cache untouched and the callable not
invoked), try `get`; a non-`None` cached value is returned with zero
underlying invocations; otherwise invoke the callable, `set` the result
and return it.  The third component counts underlying invocations. -/
def wrapperCall (cm : CacheManager) (fname : String) (f : List PyObj → Value)
    (args : List PyObj) (ttl : Int) (level : CacheLevel) (now : Nat) :
    Except String Value × CacheManager × Nat :=
  match serializeArgs fname args with
  | .error e => (.error e, cm, 0)
  | .ok s =>
    let key := funcKey s
    let g := cm.get key level now
    if g.1.isNone = false then (.ok g.1, g.2.1, 0)
    else
      let result := f args
      let cm2 := g.2.1.set key result (some ttl) level now
      (.ok result, cm2, 1)

/-! ### Association-list lemmas -/

theorem assocKeys_nil {α : Type} : assocKeys ([] : List (String × α)) = [] := rfl

theorem assocKeys_cons {α : Type} (p : String × α) (s : List (String × α)) :
    assocKeys (p :: s) = p.1 :: assocKeys s := rfl

theorem assocFind_none_iff {α : Type} (s : List (String × α)) (k : String) :
    assocFind s k = none ↔ k ∉ assocKeys s := by
  induction s with
  | nil => simp [assocFind, assocKeys]
  | cons p rest ih =>
    by_cases h : p.1 = k
    · simp [assocFind, assocKeys_cons, h]
    · have hk : k ≠ p.1 := fun hc => h hc.symm
      simp [assocFind, assocKeys_cons, h, ih, hk]

theorem assocFind_isSome_iff {α : Type} (s : List (String × α)) (k : String) :
    (assocFind s k).isSome = true ↔ k ∈ assocKeys s := by
  rw [Option.isSome_iff_ne_none, ne_eq, assocFind_none_iff, not_not]

theorem assocFind_append_right {α : Type} (s : List (String × α)) (k : String)
    (v : α) (h : assocFind s k = none) :
    assocFind (s ++ [(k, v)]) k = some v := by
  induction s with
  | nil => simp [assocFind]
  | cons p rest ih =>
    simp only [assocFind] at h ⊢
    by_cases hp : p.1 = k
    · simp [hp] at h
    · simp only [hp, if_false] at h ⊢
      exact ih h

theorem assocFind_append_left {α : Type} (s t : List (String × α)) (k : String)
    (v : α) (h : assocFind s k = some v) :
    assocFind (s ++ t) k = some v := by
  induction s with
  | nil => simp [assocFind] at h
  | cons p rest ih =>
    simp only [assocFind] at h ⊢
    by_cases hp : p.1 = k <;> simp_all

theorem assocErase_of_none {α : Type} (s : List (String × α)) (k : String)
    (h : assocFind s k = none) : assocErase s k = s := by
  induction s with
  | nil => rfl
  | cons p rest ih =>
    simp only [assocFind] at h
    by_cases hp : p.1 = k
    · simp [hp] at h
    · simp only [hp, if_false] at h
      simp [assocErase, hp, ih h]

theorem assocErase_length {α : Type} (s : List (String × α)) (k : String)
    (h : (assocFind s k).isSome = true) :
    (assocErase s k).length + 1 = s.length := by
  induction s with
  | nil => simp [assocFind] at h
  | cons p rest ih =>
    simp only [assocFind] at h
    by_cases hp : p.1 = k
    · simp [assocErase, hp]
    · simp only [hp, if_false] at h
      simp [assocErase, hp, ← ih h]

theorem assocKeys_erase_subset {α : Type} (s : List (String × α)) (k k' : String)
    (h : k' ∈ assocKeys (assocErase s k)) : k' ∈ assocKeys s := by
  induction s with
  | nil => simp [assocErase, assocKeys] at h
  | cons p rest ih =>
    by_cases hp : p.1 = k
    · simp only [assocErase, hp, if_pos] at h
      simp [assocKeys_cons]
      exact Or.inr h
    · simp only [assocErase, hp, if_false, assocKeys_cons,
        List.mem_cons] at h ⊢
      rcases h with h1 | h2
      · exact Or.inl h1
      · exact Or.inr (ih h2)

theorem assocKeys_erase_nodup {α : Type} (s : List (String × α)) (k : String)
    (h : (assocKeys s).Nodup) : (assocKeys (assocErase s k)).Nodup := by
  induction s with
  | nil => simpa [assocErase] using h
  | cons p rest ih =>
    simp only [assocKeys_cons, List.nodup_cons] at h
    by_cases hp : p.1 = k
    · simpa [assocErase, hp] using h.2
    · simp only [assocErase, hp, if_false, assocKeys_cons, List.nodup_cons]
      exact ⟨fun hm => h.1 (assocKeys_erase_subset rest k p.1 hm), ih h.2⟩

theorem not_mem_assocKeys_erase_self {α : Type} (s : List (String × α))
    (k : String) (h : (assocKeys s).Nodup) :
    k ∉ assocKeys (assocErase s k) := by
  induction s with
  | nil => simp [assocErase, assocKeys]
  | cons p rest ih =>
    simp only [assocKeys_cons, List.nodup_cons] at h
    by_cases hp : p.1 = k
    · simp only [assocErase, hp, if_true]
      rw [hp] at h
      exact h.1
    · simp only [assocErase, hp, if_false, assocKeys_cons, List.mem_cons]
      rintro (rfl | hm)
      · exact hp rfl
      · exact ih h.2 hm

theorem assocFind_assocSet_self {α : Type} (s : List (String × α)) (k : String)
    (v : α) : assocFind (assocSet s k v) k = some v := by
  induction s with
  | nil => simp [assocSet, assocFind]
  | cons p rest ih =>
    by_cases hp : p.1 = k <;> simp [assocSet, assocFind, hp, ih]

theorem assocSet_length_of_mem {α : Type} (s : List (String × α)) (k : String)
    (v : α) (h : (assocFind s k).isSome = true) :
    (assocSet s k v).length = s.length := by
  induction s with
  | nil => simp [assocFind] at h
  | cons p rest ih =>
    simp only [assocFind] at h
    by_cases hp : p.1 = k
    · simp [assocSet, hp]
    · simp only [hp, if_false] at h
      simp [assocSet, hp, ih h]

theorem assocErase_middle {α : Type} (pre post : List (String × α))
    (q : String × α) (h : q.1 ∉ assocKeys pre) :
    assocErase (pre ++ q :: post) q.1 = pre ++ post := by
  induction pre with
  | nil => simp [assocErase]
  | cons p rest ih =>
    simp only [assocKeys_cons, List.mem_cons] at h
    push_neg at h
    have hp : p.1 ≠ q.1 := fun hc => h.1 hc.symm
    simp [assocErase, hp, ih h.2]

/-! ### Properties of the LRU victim selection -/

theorem selectLRU_min (rest : List (String × CacheEntry))
    (best : String × CacheEntry) :
    (selectLRU best rest).2.last_access ≤ best.2.last_access ∧
    ∀ q ∈ rest, (selectLRU best rest).2.last_access ≤ q.2.last_access := by
  induction rest generalizing best with
  | nil => exact ⟨Nat.le_refl _, fun q hq => absurd hq (List.not_mem_nil q)⟩
  | cons p rest ih =>
    rw [selectLRU]
    by_cases h : p.2.last_access < best.2.last_access
    · rw [if_pos h]
      obtain ⟨h1, h2⟩ := ih p
      refine ⟨Nat.le_trans h1 (Nat.le_of_lt h), fun q hq => ?_⟩
      rcases List.mem_cons.mp hq with rfl | hq'
      · exact h1
      · exact h2 q hq'
    · rw [if_neg h]
      obtain ⟨h1, h2⟩ := ih best
      refine ⟨h1, fun q hq => ?_⟩
      rcases List.mem_cons.mp hq with rfl | hq'
      · exact Nat.le_trans h1 (Nat.le_of_not_lt h)
      · exact h2 q hq'

theorem selectLRU_decomp (rest : List (String × CacheEntry))
    (best : String × CacheEntry) :
    ∃ pre post, best :: rest = pre ++ (selectLRU best rest) :: post ∧
      (∀ q ∈ pre, (selectLRU best rest).2.last_access < q.2.last_access) ∧
      (∀ q ∈ post, (selectLRU best rest).2.last_access ≤ q.2.last_access) := by
  induction rest generalizing best with
  | nil =>
    refine ⟨[], [], rfl, ?_, ?_⟩ <;> intro q hq <;>
      exact absurd hq (List.not_mem_nil q)
  | cons p rest ih =>
    rw [selectLRU]
    by_cases h : p.2.last_access < best.2.last_access
    · rw [if_pos h]
      obtain ⟨pre, post, hdec, hpre, hpost⟩ := ih p
      refine ⟨best :: pre, post, ?_, ?_, hpost⟩
      · rw [List.cons_append, ← hdec]
      · intro q hq
        rcases List.mem_cons.mp hq with rfl | hq'
        · exact Nat.lt_of_le_of_lt (selectLRU_min rest p).1 h
        · exact hpre q hq'
    · rw [if_neg h]
      obtain ⟨pre, post, hdec, hpre, hpost⟩ := ih best
      cases pre with
      | nil =>
        simp only [List.nil_append] at hdec
        injection hdec with h1 h2
        refine ⟨[], p :: post, ?_, ?_, ?_⟩
        · simp [← h1, ← h2]
        · intro q hq
          exact absurd hq (List.not_mem_nil q)
        · intro q hq
          rcases List.mem_cons.mp hq with rfl | hq'
          · rw [← h1]
            exact Nat.le_of_not_lt h
          · exact hpost q hq'
      | cons b pre' =>
        rw [List.cons_append] at hdec
        injection hdec with h1 h2
        have hbest : (selectLRU best rest).2.last_access < best.2.last_access := by
          have hb := hpre b (List.mem_cons_self b pre')
          rwa [← h1] at hb
        refine ⟨best :: p :: pre', post, ?_, ?_, hpost⟩
        · simp only [List.cons_append]
          exact congrArg (fun l => best :: p :: l) h2
        · intro q hq
          rcases List.mem_cons.mp hq with rfl | hq'
          · exact hbest
          · rcases List.mem_cons.mp hq' with rfl | hq''
            · exact Nat.lt_of_lt_of_le hbest (Nat.le_of_not_lt h)
            · exact hpre q (List.mem_cons_of_mem b hq'')

theorem selectLRU_mem (rest : List (String × CacheEntry))
    (best : String × CacheEntry) :
    selectLRU best rest ∈ best :: rest := by
  obtain ⟨pre, post, hdec, -, -⟩ := selectLRU_decomp rest best
  rw [hdec]
  exact List.mem_append.mpr (Or.inr (List.mem_cons_self _ _))

/-! ### Expiry arithmetic -/

theorem is_expired_iff (e : CacheEntry) (T now : Nat) (httl : e.ttl = (T : Int))
    (hT : 0 < T) : e.is_expired now = true ↔ e.timestamp + T < now := by
  simp only [CacheEntry.is_expired, httl]
  rw [if_neg (by omega : ¬((T : Int) ≤ 0))]
  simp only [decide_eq_true_eq]
  omega

theorem is_expired_false_iff (e : CacheEntry) (T now : Nat)
    (httl : e.ttl = (T : Int)) (hT : 0 < T) :
    e.is_expired now = false ↔ now ≤ e.timestamp + T := by
  rw [← Bool.not_eq_true, is_expired_iff e T now httl hT]
  omega

/-! ### Claim theorems -/

/-- C1: a memoized callable whose arguments cannot be canonically
serialized fails key derivation, and that failure propagates to the caller
as an explicit error — the underlying callable is not invoked and the
cache is left untouched, never silently bypassed. -/
theorem wrapper_key_error_propagates (cm : CacheManager) (fname : String)
    (f : List PyObj → Value) (args : List PyObj) (ttl : Int)
    (level : CacheLevel) (now : Nat) (e : String)
    (h : serializeArgs fname args = Except.error e) :
    wrapperCall cm fname f args ttl level now = (Except.error e, cm, 0) := by
  simp [wrapperCall, h]

theorem wrapper_key_error_propagates_witness :
    serializeArgs "g" [PyObj.circular] =
        Except.error "Circular reference detected" ∧
    wrapperCall (CacheManager.init 10 []) "g" (fun _ => Value.vint 0)
        [PyObj.circular] 3600 CacheLevel.memory_only 0 =
      (Except.error "Circular reference detected", CacheManager.init 10 [], 0) :=
  ⟨rfl, wrapper_key_error_propagates (CacheManager.init 10 []) "g"
    (fun _ => Value.vint 0) [PyObj.circular] 3600 CacheLevel.memory_only 0
    "Circular reference detected" rfl⟩

/-- C2: an entry with `ttl = 0` is never expired, at any clock reading;
and for an entry with `ttl = T > 0`, `MemoryCache.get` is a hit (stored
value returned, hit counter bumped, store size unchanged) at every time up
to and including `timestamp + T`, and a miss strictly after, the miss
removing exactly that entry so the size drops by one and the expiration
counter bumps. -/
theorem ttl_zero_never_expires_and_ttl_window :
    (∀ (e : CacheEntry), e.ttl = 0 → ∀ now : Nat, e.is_expired now = false) ∧
    (∀ (mc : MemoryCache) (k : String) (e : CacheEntry) (T now : Nat),
      assocFind mc.store k = some e → e.ttl = (T : Int) → 0 < T →
      ((now ≤ e.timestamp + T →
         (mc.get k now).1 = e.value ∧
         (mc.get k now).2.store.length = mc.store.length ∧
         (mc.get k now).2.hits = mc.hits + 1) ∧
       (e.timestamp + T < now →
         (mc.get k now).1 = Value.vnone ∧
         (mc.get k now).2.store = assocErase mc.store k ∧
         (mc.get k now).2.store.length + 1 = mc.store.length ∧
         (mc.get k now).2.expires = mc.expires + 1))) := by
  constructor
  · intro e h now
    simp [CacheEntry.is_expired, h]
  · intro mc k e T now hfind httl hT
    have hsome : (assocFind mc.store k).isSome = true := by
      rw [hfind]; rfl
    constructor
    · intro hle
      have hexp : e.is_expired now = false :=
        (is_expired_false_iff e T now httl hT).mpr hle
      simp [MemoryCache.get, hfind, hexp,
        assocSet_length_of_mem mc.store k _ hsome]
    · intro hlt
      have hexp : e.is_expired now = true :=
        (is_expired_iff e T now httl hT).mpr hlt
      simp [MemoryCache.get, hfind, hexp,
        assocErase_length mc.store k hsome]

theorem ttl_zero_never_expires_and_ttl_window_witness :
    ((⟨"k", Value.vint 1, 5, 0, 0, 5⟩ : CacheEntry).is_expired 1000000 = false) ∧
    (let mc : MemoryCache :=
      ⟨10, 3600, [("k", ⟨"k", Value.vint 1, 5, 7, 0, 5⟩)], 0, 0, 0, 0⟩
     (mc.get "k" 12).1 = Value.vint 1 ∧
     (mc.get "k" 13).1 = Value.vnone ∧
     (mc.get "k" 13).2.store.length + 1 = mc.store.length) := by
  refine ⟨ttl_zero_never_expires_and_ttl_window.1
    ⟨"k", Value.vint 1, 5, 0, 0, 5⟩ rfl 1000000, ?_, ?_, ?_⟩
  · exact ((ttl_zero_never_expires_and_ttl_window.2
      ⟨10, 3600, [("k", ⟨"k", Value.vint 1, 5, 7, 0, 5⟩)], 0, 0, 0, 0⟩ "k"
      ⟨"k", Value.vint 1, 5, 7, 0, 5⟩ 7 12 rfl rfl
      (by decide)).1 (by decide)).1
  · exact ((ttl_zero_never_expires_and_ttl_window.2
      ⟨10, 3600, [("k", ⟨"k", Value.vint 1, 5, 7, 0, 5⟩)], 0, 0, 0, 0⟩ "k"
      ⟨"k", Value.vint 1, 5, 7, 0, 5⟩ 7 13 rfl rfl
      (by decide)).2 (by decide)).1
  · exact ((ttl_zero_never_expires_and_ttl_window.2
      ⟨10, 3600, [("k", ⟨"k", Value.vint 1, 5, 7, 0, 5⟩)], 0, 0, 0, 0⟩ "k"
      ⟨"k", Value.vint 1, 5, 7, 0, 5⟩ 7 13 rfl rfl
      (by decide)).2 (by decide)).2.2.1

/-! ### Cleanup as a filter -/

theorem assocErase_cons_ne {α : Type} (s : List (String × α)) (p : String × α)
    (k : String) (h : p.1 ≠ k) : assocErase (p :: s) k = p :: assocErase s k := by
  simp [assocErase, h]

theorem foldl_erase_cons {α : Type} (s : List (String × α)) (p : String × α)
    (ks : List String) (h : ∀ k ∈ ks, k ≠ p.1) :
    ks.foldl (fun t k => assocErase t k) (p :: s) =
      p :: ks.foldl (fun t k => assocErase t k) s := by
  induction ks generalizing s with
  | nil => rfl
  | cons k ks ih =>
    simp only [List.foldl_cons]
    rw [assocErase_cons_ne s p k
      (fun hc => h k (List.mem_cons_self k ks) hc.symm)]
    exact ih (assocErase s k) (fun k' hk' => h k' (List.mem_cons_of_mem k hk'))

theorem cleanup_store_eq (store : List (String × CacheEntry)) (now : Nat)
    (h : (assocKeys store).Nodup) :
    ((store.filter fun p => p.2.is_expired now).map Prod.fst).foldl
        (fun s k => assocErase s k) store =
      store.filter fun p => !(p.2.is_expired now) := by
  induction store with
  | nil => rfl
  | cons p rest ih =>
    simp only [assocKeys_cons, List.nodup_cons] at h
    by_cases hexp : p.2.is_expired now = true
    · rw [List.filter_cons_of_pos (p := fun (q : String × CacheEntry) => q.2.is_expired now) hexp,
        List.map_cons, List.foldl_cons,
        List.filter_cons_of_neg (p := fun (q : String × CacheEntry) => !q.2.is_expired now)
          (by simp [hexp])]
      rw [show assocErase (p :: rest) p.1 = rest from by simp [assocErase]]
      exact ih h.2
    · rw [List.filter_cons_of_neg (p := fun (q : String × CacheEntry) => q.2.is_expired now) hexp,
        List.filter_cons_of_pos (p := fun (q : String × CacheEntry) => !q.2.is_expired now)
          (by simpa using hexp)]
      rw [foldl_erase_cons rest p _ ?keys]
      · rw [ih h.2]
      case keys =>
        intro k hk
        obtain ⟨q, hq, rfl⟩ := List.mem_map.mp hk
        intro hc
        exact h.1 (hc ▸ List.mem_map_of_mem Prod.fst (List.mem_of_mem_filter hq))

/-- C6: `cleanup_expired` removes exactly the entries expired at the scan
time (the store afterwards is the original filtered to live entries, in
order and untouched), returns exactly the number removed, and entries with
`ttl = 0` always survive. -/
theorem cleanup_removes_exactly_expired (mc : MemoryCache) (now : Nat)
    (h : (assocKeys mc.store).Nodup) :
    (mc.cleanup_expired now).2.store =
        mc.store.filter (fun p => !(p.2.is_expired now)) ∧
    (mc.cleanup_expired now).1 =
        (mc.store.filter fun p => p.2.is_expired now).length ∧
    (∀ p ∈ mc.store, p.2.ttl = 0 → p ∈ (mc.cleanup_expired now).2.store) := by
  refine ⟨?_, ?_, ?_⟩
  · simpa [MemoryCache.cleanup_expired] using cleanup_store_eq mc.store now h
  · simp [MemoryCache.cleanup_expired]
  · intro p hp httl
    have hlive : p.2.is_expired now = false := by
      simp [CacheEntry.is_expired, httl]
    have : p ∈ mc.store.filter (fun p => !(p.2.is_expired now)) :=
      List.mem_filter.mpr ⟨hp, by simp [hlive]⟩
    simpa [MemoryCache.cleanup_expired, cleanup_store_eq mc.store now h]
      using this

theorem cleanup_removes_exactly_expired_witness :
    (let mc : MemoryCache :=
      ⟨10, 3600, [("a", ⟨"a", Value.vint 1, 0, 5, 0, 0⟩),
                  ("b", ⟨"b", Value.vint 2, 0, 0, 0, 0⟩),
                  ("c", ⟨"c", Value.vint 3, 2, 9, 0, 2⟩)], 0, 0, 0, 0⟩
     (mc.cleanup_expired 7).2.store =
       [("b", ⟨"b", Value.vint 2, 0, 0, 0, 0⟩),
        ("c", ⟨"c", Value.vint 3, 2, 9, 0, 2⟩)] ∧
     (mc.cleanup_expired 7).1 = 1) := by
  have h := cleanup_removes_exactly_expired
    ⟨10, 3600, [("a", ⟨"a", Value.vint 1, 0, 5, 0, 0⟩),
                ("b", ⟨"b", Value.vint 2, 0, 0, 0, 0⟩),
                ("c", ⟨"c", Value.vint 3, 2, 9, 0, 2⟩)], 0, 0, 0, 0⟩ 7
    (by decide)
  refine ⟨?_, ?_⟩
  · rw [h.1]; decide
  · rw [h.2.1]; decide

/-! ### Persistent tier claims -/

/-- A file `cleanup_expired` deletes: expired or unreadable. -/
def removable (fd : FileData) (now : Nat) : Bool :=
  match fd with
  | .corrupt => true
  | .good e => e.is_expired now

/-- C7: a persistent file that cannot be deserialized is deleted by `get`
and reported as a plain miss — no error reaches the caller (`get` is total
on any directory state); and `cleanup_expired` deletes exactly the files
that are expired or unreadable, counts each of them, and keeps every other
file untouched. -/
theorem persistent_selfheal_corrupt :
    (∀ (fs : FS) (k : String) (now : Nat),
      assocFind fs (cacheFileName k) = some FileData.corrupt →
      PersistentCache.get fs k now =
        (Value.vnone, assocErase fs (cacheFileName k))) ∧
    (∀ (fs : FS) (now : Nat),
      PersistentCache.cleanup_expired fs now =
        ((fs.filter fun p => removable p.2 now).length,
         fs.filter fun p => !(removable p.2 now))) := by
  constructor
  · intro fs k now h
    simp [PersistentCache.get, h]
  · intro fs now
    induction fs with
    | nil => rfl
    | cons p rest ih =>
      obtain ⟨name, fd⟩ := p
      cases fd with
      | corrupt =>
        simp [PersistentCache.cleanup_expired, ih, removable,
          List.filter_cons]
      | good e =>
        by_cases hexp : e.is_expired now = true
        · simp [PersistentCache.cleanup_expired, ih, removable, hexp,
            List.filter_cons]
        · simp [PersistentCache.cleanup_expired, ih, removable, hexp,
            List.filter_cons]

theorem persistent_selfheal_corrupt_witness :
    PersistentCache.get [(cacheFileName "k", FileData.corrupt)] "k" 0 =
      (Value.vnone, []) ∧
    PersistentCache.cleanup_expired
        [(cacheFileName "k", FileData.corrupt),
         (cacheFileName "a", FileData.good ⟨"a", Value.vint 1, 0, 5, 0, 0⟩),
         (cacheFileName "b", FileData.good ⟨"b", Value.vint 2, 0, 100, 0, 0⟩)]
        9 =
      (2, [(cacheFileName "b", FileData.good ⟨"b", Value.vint 2, 0, 100, 0, 0⟩)]) := by
  constructor
  · rw [persistent_selfheal_corrupt.1
      [(cacheFileName "k", FileData.corrupt)] "k" 0 (by decide)]
    decide
  · rw [persistent_selfheal_corrupt.2
      [(cacheFileName "k", FileData.corrupt),
       (cacheFileName "a", FileData.good ⟨"a", Value.vint 1, 0, 5, 0, 0⟩),
       (cacheFileName "b", FileData.good ⟨"b", Value.vint 2, 0, 100, 0, 0⟩)] 9]
    decide

/-- C8: a persistent `set` with ttl 60 followed by a `get` at any time in
the 60-second window returns the stored value unchanged; the written state
does not depend on the writing instance, and `get` reads only the
directory contents, so the same holds for a fresh `PersistentCache` opened
on the same cache directory after a restart. -/
theorem persistent_roundtrip (pc pc2 : PersistentCache) (fs : FS)
    (k : String) (v : Value) (now0 now1 : Nat)
    (h1 : now1 ≤ now0 + 60) :
    (PersistentCache.get (pc.set fs k v (some 60) now0) k now1).1 = v ∧
    pc.set fs k v (some 60) now0 = pc2.set fs k v (some 60) now0 := by
  constructor
  · have hfind : assocFind (pc.set fs k v (some 60) now0) (cacheFileName k) =
        some (FileData.good ⟨k, v, now0, 60, 0, now0⟩) := by
      simp [PersistentCache.set]
      exact assocFind_assocSet_self fs (cacheFileName k) _
    have hexp : (⟨k, v, now0, 60, 0, now0⟩ : CacheEntry).is_expired now1 = false := by
      simp only [CacheEntry.is_expired]
      rw [if_neg (by norm_num)]
      simp only [decide_eq_false_iff_not]
      omega
    simp [PersistentCache.get, hfind, hexp]
  · simp [PersistentCache.set]

theorem persistent_roundtrip_witness :
    (PersistentCache.get
        ((⟨86400⟩ : PersistentCache).set [] "k" (Value.vstr "v") (some 60) 100)
        "k" 160).1 = Value.vstr "v" ∧
    (⟨86400⟩ : PersistentCache).set [] "k" (Value.vstr "v") (some 60) 100 =
      (⟨3⟩ : PersistentCache).set [] "k" (Value.vstr "v") (some 60) 100 :=
  persistent_roundtrip ⟨86400⟩ ⟨3⟩ [] "k" (Value.vstr "v") 100 160 (by decide)

/-! ### Size invariant machinery (C9) -/

theorem assocErase_length_le {α : Type} (s : List (String × α)) (k : String) :
    (assocErase s k).length ≤ s.length := by
  induction s with
  | nil => simp [assocErase]
  | cons p rest ih =>
    by_cases hp : p.1 = k
    · have he : assocErase (p :: rest) k = rest := by simp [assocErase, hp]
      rw [he, List.length_cons]
      omega
    · simp only [assocErase, hp, if_false, List.length_cons]
      omega

theorem assocKeys_assocSet_of_mem {α : Type} (s : List (String × α))
    (k : String) (v : α) (h : (assocFind s k).isSome = true) :
    assocKeys (assocSet s k v) = assocKeys s := by
  induction s with
  | nil => simp [assocFind] at h
  | cons p rest ih =>
    simp only [assocFind] at h
    by_cases hp : p.1 = k
    · simp [assocSet, hp, assocKeys_cons]
    · simp only [hp, if_false] at h
      simp [assocSet, hp, assocKeys_cons, ih h]

theorem nodup_keys_append_single {α : Type} (s : List (String × α))
    (k : String) (v : α) (h1 : (assocKeys s).Nodup) (h2 : k ∉ assocKeys s) :
    (assocKeys (s ++ [(k, v)])).Nodup := by
  rw [assocKeys, List.map_append]
  rw [List.nodup_append]
  refine ⟨h1, List.nodup_singleton k, ?_⟩
  intro a ha hb
  simp only [List.map_cons, List.map_nil, List.mem_singleton] at hb
  subst hb
  exact h2 ha

theorem mem_keys_length_pos {α : Type} (s : List (String × α)) (k : String)
    (h : (assocFind s k).isSome = true) : 1 ≤ s.length := by
  cases s with
  | nil => simp [assocFind] at h
  | cons p rest => simp

theorem evict_lru_length (mc : MemoryCache) (h : mc.store ≠ []) :
    mc.evict_lru.store.length + 1 = mc.store.length := by
  match hs : mc.store with
  | [] => exact absurd hs h
  | p :: rest =>
    have hmem := selectLRU_mem rest p
    have hsome : (assocFind (p :: rest) (selectLRU p rest).1).isSome = true := by
      rw [assocFind_isSome_iff]
      exact List.mem_map_of_mem Prod.fst hmem
    simp only [MemoryCache.evict_lru, hs]
    exact assocErase_length _ _ hsome

theorem evict_lru_keys_subset (mc : MemoryCache) (k : String)
    (h : k ∈ assocKeys mc.evict_lru.store) : k ∈ assocKeys mc.store := by
  match hs : mc.store with
  | [] =>
    rw [MemoryCache.evict_lru] at h
    simp only [hs] at h ⊢
    exact h
  | p :: rest =>
    rw [MemoryCache.evict_lru] at h
    simp only [hs] at h ⊢
    exact assocKeys_erase_subset _ _ _ h

theorem evict_lru_nodup (mc : MemoryCache)
    (h : (assocKeys mc.store).Nodup) : (assocKeys mc.evict_lru.store).Nodup := by
  match hs : mc.store with
  | [] =>
    rw [MemoryCache.evict_lru]
    simp only [hs]
    exact hs ▸ h
  | p :: rest =>
    rw [MemoryCache.evict_lru]
    simp only [hs]
    exact assocKeys_erase_nodup _ _ (hs ▸ h)

theorem evict_lru_max_size (mc : MemoryCache) :
    mc.evict_lru.max_size = mc.max_size := by
  rw [MemoryCache.evict_lru]
  match mc.store with
  | [] => rfl
  | p :: rest => rfl

/-! ### Shape of `MemoryCache.set` in its three control paths -/

theorem memorySet_shape_pres (mc : MemoryCache) (k : String) (v : Value)
    (ttl : Option Int) (now : Nat)
    (hpres : (assocFind mc.store k).isSome = true)
    (hlt : ¬(mc.max_size ≤ (assocErase mc.store k).length)) :
    mc.set k v ttl now =
      { mc with store := assocErase mc.store k ++
          [(k, ⟨k, v, now, ttl.getD mc.default_ttl, 0, now⟩)] } := by
  simp [MemoryCache.set, hpres, hlt]

theorem memorySet_shape_room (mc : MemoryCache) (k : String) (v : Value)
    (ttl : Option Int) (now : Nat)
    (habs : assocFind mc.store k = none)
    (hroom : ¬(mc.max_size ≤ mc.store.length)) :
    mc.set k v ttl now =
      { mc with store := mc.store ++
          [(k, ⟨k, v, now, ttl.getD mc.default_ttl, 0, now⟩)] } := by
  simp [MemoryCache.set, habs, hroom]

theorem memorySet_shape_full (mc : MemoryCache) (k : String) (v : Value)
    (ttl : Option Int) (now : Nat)
    (habs : assocFind mc.store k = none)
    (hcap : mc.max_size ≤ mc.store.length) :
    mc.set k v ttl now =
      { mc.evict_lru with store := mc.evict_lru.store ++
          [(k, ⟨k, v, now, ttl.getD mc.default_ttl, 0, now⟩)] } := by
  simp [MemoryCache.set, habs, hcap]

/-- The state invariant: within capacity and duplicate-free keys. -/
def MemoryCache.Inv (mc : MemoryCache) : Prop :=
  mc.store.length ≤ mc.max_size ∧ (assocKeys mc.store).Nodup

theorem set_inv (mc : MemoryCache) (k : String) (v : Value) (ttl : Option Int)
    (now : Nat) (hmax : 1 ≤ mc.max_size) (h : mc.Inv) :
    (mc.set k v ttl now).Inv ∧ (mc.set k v ttl now).max_size = mc.max_size := by
  obtain ⟨hlen, hnodup⟩ := h
  by_cases hpres : (assocFind mc.store k).isSome = true
  · -- the key is overwritten: old entry removed first, no eviction possible
    have h1 : (assocErase mc.store k).length + 1 = mc.store.length :=
      assocErase_length mc.store k hpres
    have hlt : ¬(mc.max_size ≤ (assocErase mc.store k).length) := by
      have := mem_keys_length_pos mc.store k hpres
      omega
    rw [memorySet_shape_pres mc k v ttl now hpres hlt]
    refine ⟨⟨?_, ?_⟩, rfl⟩
    · simp only [List.length_append, List.length_cons, List.length_nil]
      omega
    · exact nodup_keys_append_single _ k _
        (assocKeys_erase_nodup _ _ hnodup)
        (not_mem_assocKeys_erase_self _ _ hnodup)
  · -- fresh key: evict once when at capacity
    have hfind : assocFind mc.store k = none := by
      cases hf : assocFind mc.store k with
      | none => rfl
      | some e => rw [hf] at hpres; simp at hpres
    have hnotmem : k ∉ assocKeys mc.store :=
      (assocFind_none_iff mc.store k).mp hfind
    by_cases hcap : mc.max_size ≤ mc.store.length
    · have hne : mc.store ≠ [] := by
        intro hc
        rw [hc] at hcap
        simp only [List.length_nil] at hcap
        omega
      have h2 := evict_lru_length mc hne
      rw [memorySet_shape_full mc k v ttl now hfind hcap]
      refine ⟨⟨?_, ?_⟩, evict_lru_max_size mc⟩
      · simp only [List.length_append, List.length_cons, List.length_nil]
        rw [evict_lru_max_size mc]
        omega
      · exact nodup_keys_append_single _ k _
          (evict_lru_nodup mc hnodup)
          (fun hm => hnotmem (evict_lru_keys_subset mc k hm))
    · rw [memorySet_shape_room mc k v ttl now hfind hcap]
      refine ⟨⟨?_, ?_⟩, rfl⟩
      · simp only [List.length_append, List.length_cons, List.length_nil]
        omega
      · exact nodup_keys_append_single _ k _ hnodup hnotmem

theorem get_inv (mc : MemoryCache) (k : String) (now : Nat) (h : mc.Inv) :
    (mc.get k now).2.Inv ∧ (mc.get k now).2.max_size = mc.max_size := by
  obtain ⟨hlen, hnodup⟩ := h
  cases hf : assocFind mc.store k with
  | none =>
    simp only [MemoryCache.get, hf]
    exact ⟨⟨hlen, hnodup⟩, trivial⟩
  | some e =>
    have hsome : (assocFind mc.store k).isSome = true := by rw [hf]; rfl
    by_cases hexp : e.is_expired now = true
    · simp only [MemoryCache.get, hf, hexp, if_true]
      refine ⟨⟨?_, assocKeys_erase_nodup _ _ hnodup⟩, trivial⟩
      exact Nat.le_trans (assocErase_length_le mc.store k) hlen
    · rw [Bool.not_eq_true] at hexp
      simp only [MemoryCache.get, hf, hexp, Bool.false_eq_true, if_false]
      refine ⟨⟨?_, ?_⟩, trivial⟩
      · rw [assocSet_length_of_mem mc.store k _ hsome]
        exact hlen
      · rw [assocKeys_assocSet_of_mem mc.store k _ hsome]
        exact hnodup

theorem cleanup_inv (mc : MemoryCache) (now : Nat) (h : mc.Inv) :
    (mc.cleanup_expired now).2.Inv ∧
    (mc.cleanup_expired now).2.max_size = mc.max_size := by
  obtain ⟨hlen, hnodup⟩ := h
  have hst : (mc.cleanup_expired now).2.store =
      mc.store.filter (fun p => !(p.2.is_expired now)) := by
    simpa [MemoryCache.cleanup_expired] using cleanup_store_eq mc.store now hnodup
  refine ⟨⟨?_, ?_⟩, rfl⟩
  · rw [hst]
    exact Nat.le_trans (List.length_filter_le _ _) hlen
  · rw [hst]
    rw [assocKeys] at hnodup ⊢
    exact hnodup.sublist ((List.filter_sublist mc.store).map Prod.fst)

/-- One call against the MemoryCache API, with its clock reading. -/
inductive CacheOp where
  | opGet (k : String) (now : Nat)
  | opSet (k : String) (v : Value) (ttl : Option Int) (now : Nat)
  | opDelete (k : String)
  | opClear
  | opCleanup (now : Nat)

/-- State reached after one API call. -/
def MemoryCache.apply (mc : MemoryCache) : CacheOp → MemoryCache
  | .opGet k now => (mc.get k now).2
  | .opSet k v ttl now => mc.set k v ttl now
  | .opDelete k => (mc.delete k).2
  | .opClear => mc.clear
  | .opCleanup now => (mc.cleanup_expired now).2

/-- State reached after a sequence of API calls. -/
def MemoryCache.applyAll (mc : MemoryCache) (ops : List CacheOp) : MemoryCache :=
  ops.foldl MemoryCache.apply mc

theorem apply_inv (mc : MemoryCache) (op : CacheOp) (hmax : 1 ≤ mc.max_size)
    (h : mc.Inv) :
    (mc.apply op).Inv ∧ (mc.apply op).max_size = mc.max_size := by
  cases op with
  | opGet k now => exact get_inv mc k now h
  | opSet k v ttl now => exact set_inv mc k v ttl now hmax h
  | opDelete k =>
    obtain ⟨hlen, hnodup⟩ := h
    by_cases hf : (assocFind mc.store k).isSome = true
    · have hd : (mc.delete k).2 = { mc with store := assocErase mc.store k } := by
        simp [MemoryCache.delete, hf]
      simp only [MemoryCache.apply, hd]
      exact ⟨⟨Nat.le_trans (assocErase_length_le mc.store k) hlen,
        assocKeys_erase_nodup _ _ hnodup⟩, trivial⟩
    · have hd : (mc.delete k).2 = mc := by
        simp [MemoryCache.delete, hf]
      simp only [MemoryCache.apply, hd]
      exact ⟨⟨hlen, hnodup⟩, trivial⟩
  | opClear =>
    refine ⟨⟨?_, ?_⟩, rfl⟩
    · simp [MemoryCache.apply, MemoryCache.clear]
    · simp [MemoryCache.apply, MemoryCache.clear, assocKeys]
  | opCleanup now => exact cleanup_inv mc now h

theorem applyAll_inv (ops : List CacheOp) (mc : MemoryCache)
    (hmax : 1 ≤ mc.max_size) (h : mc.Inv) :
    (mc.applyAll ops).Inv ∧ (mc.applyAll ops).max_size = mc.max_size := by
  induction ops generalizing mc with
  | nil => exact ⟨h, rfl⟩
  | cons op ops ih =>
    have h1 := apply_inv mc op hmax h
    have h2 := ih (mc.apply op) (h1.2 ▸ hmax) h1.1
    rw [MemoryCache.applyAll, List.foldl_cons]
    exact ⟨h2.1, h2.2.trans h1.2⟩

/-- C9: starting from a freshly constructed MemoryCache with
`max_size ≥ 1`, no sequence of get/set/delete/clear/cleanup operations
ever pushes the number of stored entries above `max_size`; and a `set`
that overwrites a present key removes that key's old entry first and
appends the new one, evicting no other key's entry (the eviction counter
does not move and every other entry is retained in order). -/
theorem memory_size_bound_and_overwrite :
    (∀ (msize : Nat) (ttl0 : Int) (ops : List CacheOp), 1 ≤ msize →
      ((MemoryCache.init msize ttl0).applyAll ops).store.length ≤ msize) ∧
    (∀ (mc : MemoryCache) (k : String) (v : Value) (ttl : Option Int)
       (now : Nat),
      mc.store.length ≤ mc.max_size → (assocKeys mc.store).Nodup →
      (assocFind mc.store k).isSome = true →
      (mc.set k v ttl now).store =
        assocErase mc.store k ++
          [(k, ⟨k, v, now, ttl.getD mc.default_ttl, 0, now⟩)] ∧
      (mc.set k v ttl now).evictions = mc.evictions) := by
  constructor
  · intro msize ttl0 ops hmsize
    have h := applyAll_inv ops (MemoryCache.init msize ttl0) hmsize
      ⟨by simp [MemoryCache.init], by simp [MemoryCache.init, assocKeys]⟩
    have hb := h.1.1
    rw [h.2] at hb
    exact hb
  · intro mc k v ttl now hlen hnodup hpres
    have h1 : (assocErase mc.store k).length + 1 = mc.store.length :=
      assocErase_length mc.store k hpres
    have hlt : ¬(mc.max_size ≤ (assocErase mc.store k).length) := by
      have := mem_keys_length_pos mc.store k hpres
      omega
    rw [memorySet_shape_pres mc k v ttl now hpres hlt]
    exact ⟨rfl, rfl⟩

theorem memory_size_bound_and_overwrite_witness :
    ((MemoryCache.init 2 3600).applyAll
        [CacheOp.opSet "a" (Value.vint 1) none 0,
         CacheOp.opSet "b" (Value.vint 2) none 1,
         CacheOp.opSet "c" (Value.vint 3) none 2,
         CacheOp.opGet "b" 3,
         CacheOp.opDelete "c"]).store.length ≤ 2 ∧
    (let mc : MemoryCache :=
      ⟨2, 3600, [("a", ⟨"a", Value.vint 1, 0, 5, 0, 0⟩),
                 ("b", ⟨"b", Value.vint 2, 0, 5, 0, 0⟩)], 0, 0, 0, 0⟩
     (mc.set "b" (Value.vint 9) none 4).store =
       [("a", ⟨"a", Value.vint 1, 0, 5, 0, 0⟩),
        ("b", ⟨"b", Value.vint 9, 4, 3600, 0, 4⟩)] ∧
     (mc.set "b" (Value.vint 9) none 4).evictions = 0) := by
  refine ⟨memory_size_bound_and_overwrite.1 2 3600 _ (by decide), ?_⟩
  have h := memory_size_bound_and_overwrite.2
    ⟨2, 3600, [("a", ⟨"a", Value.vint 1, 0, 5, 0, 0⟩),
               ("b", ⟨"b", Value.vint 2, 0, 5, 0, 0⟩)], 0, 0, 0, 0⟩
    "b" (Value.vint 9) none 4 (by decide) (by decide) (by decide)
  refine ⟨?_, h.2⟩
  rw [h.1]
  decide

/-! ### LRU eviction on insert (C3) -/

theorem nodup_decomp_not_mem_pre {α : Type} (pre post : List (String × α))
    (q : String × α) (h : (assocKeys (pre ++ q :: post)).Nodup) :
    q.1 ∉ assocKeys pre := by
  rw [assocKeys, List.map_append, List.map_cons, List.nodup_append] at h
  intro hm
  exact h.2.2 hm (List.mem_cons_self _ _)

/-- C3 counterexample: a `MemoryCache` constructed with `max_size = 0` is
at capacity while empty; inserting a fresh key then evicts no entry at all
(the eviction counter stays 0) and the store grows to one entry, contrary
to "evicts exactly one Entry before inserting". -/
theorem lru_eviction_cex_capacity_zero :
    (MemoryCache.init 0 3600).store.length = (MemoryCache.init 0 3600).max_size ∧
    ((MemoryCache.init 0 3600).set "a" (Value.vint 1) none 0).evictions = 0 ∧
    ((MemoryCache.init 0 3600).set "a" (Value.vint 1) none 0).store.length = 1 := by
  refine ⟨rfl, ?_, ?_⟩ <;> rfl

/-- C3 (amended with `max_size ≥ 1`): a set of an absent key on a cache at
capacity removes exactly one entry before inserting — the store splits as
`pre ++ victim :: post` where the victim's `last_access` is strictly below
everything before it (first-wins tie-break in the stable insertion-order
scan) and at most everything after it, and the new store is
`pre ++ post ++ [new entry]`, still of size `max_size`, with the eviction
counter bumped once. -/
theorem lru_evicts_first_min_last_access (mc : MemoryCache) (k : String)
    (v : Value) (ttl : Option Int) (now : Nat)
    (hcap : mc.store.length = mc.max_size) (hpos : 1 ≤ mc.max_size)
    (hnodup : (assocKeys mc.store).Nodup)
    (habs : assocFind mc.store k = none) :
    ∃ pre victim post,
      mc.store = pre ++ victim :: post ∧
      (∀ q ∈ pre, victim.2.last_access < q.2.last_access) ∧
      (∀ q ∈ post, victim.2.last_access ≤ q.2.last_access) ∧
      (mc.set k v ttl now).store =
        (pre ++ post) ++
          [(k, ⟨k, v, now, ttl.getD mc.default_ttl, 0, now⟩)] ∧
      (mc.set k v ttl now).store.length = mc.max_size ∧
      (mc.set k v ttl now).evictions = mc.evictions + 1 := by
  have hge : mc.max_size ≤ mc.store.length := Nat.le_of_eq hcap.symm
  rw [memorySet_shape_full mc k v ttl now habs hge]
  match hs : mc.store with
  | [] =>
    rw [hs] at hcap
    simp only [List.length_nil] at hcap
    omega
  | p :: rest =>
    obtain ⟨pre, post, hdec, hpre, hpost⟩ := selectLRU_decomp rest p
    have hvmem : selectLRU p rest ∈ p :: rest := selectLRU_mem rest p
    have hnodup' : (assocKeys (p :: rest)).Nodup := hs ▸ hnodup
    have hnotpre : (selectLRU p rest).1 ∉ assocKeys pre :=
      nodup_decomp_not_mem_pre pre post (selectLRU p rest) (hdec ▸ hnodup')
    have hevict : mc.evict_lru =
        { mc with store := assocErase (p :: rest) (selectLRU p rest).1,
                  evictions := mc.evictions + 1 } := by
      rw [MemoryCache.evict_lru]
      simp only [hs]
    have herase : assocErase (p :: rest) (selectLRU p rest).1 = pre ++ post := by
      rw [hdec]
      exact assocErase_middle pre post (selectLRU p rest) hnotpre
    refine ⟨pre, selectLRU p rest, post, hdec, hpre, hpost, ?_, ?_, ?_⟩
    · simp only [hevict, herase]
    · simp only [hevict, herase]
      have hlen2 : (pre ++ post).length + 1 = (p :: rest).length := by
        rw [hdec]
        simp only [List.length_append, List.length_cons]
        omega
      rw [hs] at hcap
      simp only [List.length_append, List.length_cons, List.length_nil]
      simp only [List.length_append, List.length_cons] at hlen2 hcap
      omega
    · simp [hevict]

theorem lru_evicts_first_min_last_access_witness :
    (let mc : MemoryCache :=
      ⟨2, 3600, [("a", ⟨"a", Value.vint 1, 0, 0, 0, 7⟩),
                 ("b", ⟨"b", Value.vint 2, 0, 0, 0, 7⟩)], 0, 0, 0, 0⟩
     (mc.set "c" (Value.vint 3) none 9).store =
       [("b", ⟨"b", Value.vint 2, 0, 0, 0, 7⟩),
        ("c", ⟨"c", Value.vint 3, 9, 3600, 0, 9⟩)] ∧
     (mc.set "c" (Value.vint 3) none 9).evictions = 1) := by
  have h := lru_evicts_first_min_last_access
    ⟨2, 3600, [("a", ⟨"a", Value.vint 1, 0, 0, 0, 7⟩),
               ("b", ⟨"b", Value.vint 2, 0, 0, 0, 7⟩)], 0, 0, 0, 0⟩
    "c" (Value.vint 3) none 9 rfl (by decide) (by decide) (by decide)
  obtain ⟨pre, victim, post, hdec, hpre, hpost, hstore, hlen, hev⟩ := h
  exact ⟨by decide, hev⟩

/-! ### CacheManager-level stepping lemmas -/

theorem Value.isNone_true_iff (v : Value) : v.isNone = true ↔ v = Value.vnone := by
  cases v <;> simp [Value.isNone]

theorem memorySet_find_self (mc : MemoryCache) (k : String) (v : Value)
    (ttl : Option Int) (now : Nat) (hinv : mc.Inv) :
    assocFind (mc.set k v ttl now).store k =
      some ⟨k, v, now, ttl.getD mc.default_ttl, 0, now⟩ := by
  obtain ⟨hlen, hnodup⟩ := hinv
  by_cases hpres : (assocFind mc.store k).isSome = true
  · have hlt : ¬(mc.max_size ≤ (assocErase mc.store k).length) := by
      have h1 := assocErase_length mc.store k hpres
      have h2 := mem_keys_length_pos mc.store k hpres
      omega
    rw [memorySet_shape_pres mc k v ttl now hpres hlt]
    exact assocFind_append_right _ k _ ((assocFind_none_iff _ k).mpr
      (not_mem_assocKeys_erase_self mc.store k hnodup))
  · have hfind : assocFind mc.store k = none := by
      cases hf : assocFind mc.store k with
      | none => rfl
      | some e => rw [hf] at hpres; simp at hpres
    have hnm : k ∉ assocKeys mc.store := (assocFind_none_iff mc.store k).mp hfind
    by_cases hcap : mc.max_size ≤ mc.store.length
    · rw [memorySet_shape_full mc k v ttl now hfind hcap]
      exact assocFind_append_right _ k _ ((assocFind_none_iff _ k).mpr
        (fun hm => hnm (evict_lru_keys_subset mc k hm)))
    · rw [memorySet_shape_room mc k v ttl now hfind hcap]
      exact assocFind_append_right _ k _ ((assocFind_none_iff _ k).mpr hnm)

theorem memoryGet_vnone (mc : MemoryCache) (k : String) (now : Nat)
    (e : CacheEntry) (hf : assocFind mc.store k = some e)
    (hv : e.value = Value.vnone) : (mc.get k now).1 = Value.vnone := by
  by_cases hexp : e.is_expired now = true
  · simp [MemoryCache.get, hf, hexp]
  · rw [Bool.not_eq_true] at hexp
    simp [MemoryCache.get, hf, hexp, hv]

theorem persistentGet_good_live (fs : FS) (k : String) (now : Nat)
    (e : CacheEntry) (hf : assocFind fs (cacheFileName k) = some (FileData.good e))
    (hexp : e.is_expired now = false) :
    PersistentCache.get fs k now =
      (e.value, assocSet fs (cacheFileName k)
        (FileData.good (e.bumpAccess now))) := by
  simp [PersistentCache.get, hf, hexp]

theorem persistentGet_absent (fs : FS) (k : String) (now : Nat)
    (hf : assocFind fs (cacheFileName k) = none) :
    PersistentCache.get fs k now = (Value.vnone, fs) := by
  simp [PersistentCache.get, hf]

theorem managerGet_memory_only (cm : CacheManager) (k : String) (now : Nat) :
    cm.get k CacheLevel.memory_only now =
      ((cm.memory.get k now).1,
       { cm with memory := (cm.memory.get k now).2 }, false) := by
  by_cases h : (cm.memory.get k now).1.isNone = false
  · simp [CacheManager.get, h]
  · have hv : (cm.memory.get k now).1 = Value.vnone := by
      rw [← Value.isNone_true_iff]
      revert h
      cases (cm.memory.get k now).1.isNone <;> simp
    simp [CacheManager.get, h, hv]

theorem managerGet_persistent_only (cm : CacheManager) (k : String) (now : Nat) :
    cm.get k CacheLevel.persistent_only now =
      (if (PersistentCache.get cm.fs k now).1.isNone = false then
        ((PersistentCache.get cm.fs k now).1,
         { cm with fs := (PersistentCache.get cm.fs k now).2 }, true)
      else
        (Value.vnone,
         { cm with fs := (PersistentCache.get cm.fs k now).2 }, true)) := by
  by_cases hp : (PersistentCache.get cm.fs k now).1.isNone = false <;>
    simp [CacheManager.get, Value.isNone, hp]

theorem managerGet_both_memhit (cm : CacheManager) (k : String) (now : Nat)
    (h : (cm.memory.get k now).1.isNone = false) :
    cm.get k CacheLevel.both now =
      ((cm.memory.get k now).1,
       { cm with memory := (cm.memory.get k now).2 }, false) := by
  simp [CacheManager.get, h]

theorem managerGet_both_memmiss (cm : CacheManager) (k : String) (now : Nat)
    (h : (cm.memory.get k now).1.isNone = true) :
    cm.get k CacheLevel.both now =
      (if (PersistentCache.get cm.fs k now).1.isNone = false then
        ((PersistentCache.get cm.fs k now).1,
         { cm with
             memory := (cm.memory.get k now).2.set k
               (PersistentCache.get cm.fs k now).1 none now,
             fs := (PersistentCache.get cm.fs k now).2 }, true)
      else
        (Value.vnone,
         { cm with memory := (cm.memory.get k now).2,
                   fs := (PersistentCache.get cm.fs k now).2 }, true)) := by
  have h' : ¬((cm.memory.get k now).1.isNone = false) := by
    rw [h]
    simp
  by_cases hp : (PersistentCache.get cm.fs k now).1.isNone = false <;>
    simp [CacheManager.get, h', hp]

theorem managerSet_memory_only (cm : CacheManager) (k : String) (v : Value)
    (ttl : Option Int) (now : Nat) :
    cm.set k v ttl CacheLevel.memory_only now =
      { cm with memory := cm.memory.set k v ttl now } := by
  simp [CacheManager.set]

theorem managerSet_persistent_only (cm : CacheManager) (k : String) (v : Value)
    (ttl : Option Int) (now : Nat) :
    cm.set k v ttl CacheLevel.persistent_only now =
      { cm with fs := cm.persistent.set cm.fs k v ttl now } := by
  simp [CacheManager.set]

theorem managerSet_both (cm : CacheManager) (k : String) (v : Value)
    (ttl : Option Int) (now : Nat) :
    cm.set k v ttl CacheLevel.both now =
      { cm with memory := cm.memory.set k v ttl now,
                fs := cm.persistent.set cm.fs k v ttl now } := by
  simp [CacheManager.set]

/-! ### A stored `None` behaves as a miss (C10) -/

theorem memoryGet_miss_none (mc : MemoryCache) (k : String) (now : Nat)
    (hf : assocFind mc.store k = none) : (mc.get k now).1 = Value.vnone := by
  simp [MemoryCache.get, hf]

theorem persistentGet_vnone (fs : FS) (k : String) (now : Nat) (e : CacheEntry)
    (hf : assocFind fs (cacheFileName k) = some (FileData.good e))
    (hv : e.value = Value.vnone) :
    (PersistentCache.get fs k now).1 = Value.vnone := by
  by_cases hexp : e.is_expired now = true
  · simp [PersistentCache.get, hf, hexp]
  · rw [Bool.not_eq_true] at hexp
    simp [PersistentCache.get, hf, hexp, hv]

/-- If every tier the level consults holds either nothing or a `None`
value under the key, the manager lookup reports the miss result `None`. -/
theorem managerGet_vnone_cached (cm : CacheManager) (k : String)
    (level : CacheLevel) (now : Nat)
    (hmem : level ≠ CacheLevel.persistent_only →
      (assocFind cm.memory.store k = none ∨
       ∃ e, assocFind cm.memory.store k = some e ∧ e.value = Value.vnone))
    (hfs : level ≠ CacheLevel.memory_only →
      (assocFind cm.fs (cacheFileName k) = none ∨
       ∃ e, assocFind cm.fs (cacheFileName k) = some (FileData.good e) ∧
         e.value = Value.vnone)) :
    (cm.get k level now).1 = Value.vnone := by
  have hmget : level ≠ CacheLevel.persistent_only →
      (cm.memory.get k now).1 = Value.vnone := by
    intro hne
    rcases hmem hne with habs | ⟨e, he, hv⟩
    · exact memoryGet_miss_none cm.memory k now habs
    · exact memoryGet_vnone cm.memory k now e he hv
  have hpget : level ≠ CacheLevel.memory_only →
      (PersistentCache.get cm.fs k now).1 = Value.vnone := by
    intro hne
    rcases hfs hne with habs | ⟨e, he, hv⟩
    · rw [persistentGet_absent cm.fs k now habs]
    · exact persistentGet_vnone cm.fs k now e he hv
  cases level with
  | memory_only =>
    rw [managerGet_memory_only]
    exact hmget (by decide)
  | persistent_only =>
    rw [managerGet_persistent_only]
    rw [if_neg (by rw [hpget (by decide)]; simp [Value.isNone])]
  | both =>
    have hm : (cm.memory.get k now).1.isNone = true := by
      rw [hmget (by decide)]
      rfl
    rw [managerGet_both_memmiss cm k now hm]
    rw [if_neg (by rw [hpget (by decide)]; simp [Value.isNone])]

theorem wrapperCall_miss (cm : CacheManager) (fname : String)
    (f : List PyObj → Value) (args : List PyObj) (s : String) (ttl : Int)
    (level : CacheLevel) (now : Nat)
    (hser : serializeArgs fname args = Except.ok s)
    (hmiss : (cm.get (funcKey s) level now).1 = Value.vnone) :
    wrapperCall cm fname f args ttl level now =
      (Except.ok (f args),
       (cm.get (funcKey s) level now).2.1.set (funcKey s) (f args)
         (some ttl) level now, 1) := by
  simp [wrapperCall, hser, hmiss, Value.isNone]

theorem wrapperCall_hit (cm : CacheManager) (fname : String)
    (f : List PyObj → Value) (args : List PyObj) (s : String) (ttl : Int)
    (level : CacheLevel) (now : Nat)
    (hser : serializeArgs fname args = Except.ok s)
    (hhit : (cm.get (funcKey s) level now).1.isNone = false) :
    wrapperCall cm fname f args ttl level now =
      (Except.ok (cm.get (funcKey s) level now).1,
       (cm.get (funcKey s) level now).2.1, 0) := by
  simp [wrapperCall, hser, hhit]

/-- A memoized callable whose result is `None` is re-invoked by the very
next call, at every tier selection: the `None` it cached is
indistinguishable from a miss. -/
theorem wrapper_vnone_reinvokes (cm : CacheManager) (fname : String)
    (f : List PyObj → Value) (args : List PyObj) (s : String) (ttl : Int)
    (level : CacheLevel) (now1 now2 : Nat)
    (hser : serializeArgs fname args = Except.ok s)
    (hres : f args = Value.vnone) (hinv : cm.memory.Inv)
    (hg1 : (cm.get (funcKey s) level now1).1 = Value.vnone) :
    (wrapperCall cm fname f args ttl level now1).2.2 = 1 ∧
    (wrapperCall (wrapperCall cm fname f args ttl level now1).2.1
      fname f args ttl level now2).2.2 = 1 := by
  have hstep1 := wrapperCall_miss cm fname f args s ttl level now1 hser hg1
  refine ⟨by rw [hstep1], ?_⟩
  rw [hstep1]
  -- the state after the first call
  have hXmem : ((cm.get (funcKey s) level now1).2.1).memory.Inv := by
    cases level with
    | memory_only =>
      rw [managerGet_memory_only]
      exact (get_inv cm.memory (funcKey s) now1 hinv).1
    | persistent_only =>
      rw [managerGet_persistent_only]
      by_cases hp : (PersistentCache.get cm.fs (funcKey s) now1).1.isNone = false
      · rw [if_pos hp]
        exact hinv
      · rw [if_neg hp]
        exact hinv
    | both =>
      have hm : (cm.memory.get (funcKey s) now1).1.isNone = true := by
        by_cases hm' : (cm.memory.get (funcKey s) now1).1.isNone = false
        · rw [managerGet_both_memhit cm (funcKey s) now1 hm'] at hg1
          rw [hg1] at hm'
          simp [Value.isNone] at hm'
        · cases hb : (cm.memory.get (funcKey s) now1).1.isNone
          · exact absurd hb hm'
          · rfl
      rw [managerGet_both_memmiss cm (funcKey s) now1 hm] at hg1 ⊢
      by_cases hp : (PersistentCache.get cm.fs (funcKey s) now1).1.isNone = false
      · rw [if_pos hp] at hg1
        simp only at hg1
        rw [hg1] at hp
        simp [Value.isNone] at hp
      · rw [if_neg hp]
        exact (get_inv cm.memory (funcKey s) now1 hinv).1
  have hg2 : ((((cm.get (funcKey s) level now1).2.1).set (funcKey s) (f args)
      (some ttl) level now1).get (funcKey s) level now2).1 = Value.vnone := by
    apply managerGet_vnone_cached
    · intro hne
      cases level with
      | memory_only =>
        rw [managerSet_memory_only]
        right
        exact ⟨_, memorySet_find_self _ (funcKey s) (f args) (some ttl) now1
          hXmem, hres⟩
      | persistent_only => exact absurd rfl hne
      | both =>
        rw [managerSet_both]
        right
        exact ⟨_, memorySet_find_self _ (funcKey s) (f args) (some ttl) now1
          hXmem, hres⟩
    · intro hne
      cases level with
      | memory_only => exact absurd rfl hne
      | persistent_only =>
        rw [managerSet_persistent_only]
        right
        exact ⟨_, assocFind_assocSet_self _ (cacheFileName (funcKey s)) _, hres⟩
      | both =>
        rw [managerSet_both]
        right
        exact ⟨_, assocFind_assocSet_self _ (cacheFileName (funcKey s)) _, hres⟩
  rw [wrapperCall_miss _ fname f args s ttl level now2 hser hg2]

/-- C10: at the CacheManager interface a stored `None` is indistinguishable
from a miss: (i) after `set(k, None, tier)` on any state whose memory tier
is well-formed, `get(k, tier)` returns the miss result `None` at every
later time and every tier; (ii) with tier `both`, a memory entry holding
`None` does not short-circuit the lookup, which falls through to the
persistent tier and returns its (non-`None`) value, the persistent tier
having been consulted; (iii) a memoized callable whose result is `None` is
re-invoked on every call instead of being served from cache. -/
theorem none_indistinguishable_from_miss :
    (∀ (cm : CacheManager) (k : String) (ttl : Option Int)
       (level : CacheLevel) (now now' : Nat), cm.memory.Inv →
       ((cm.set k Value.vnone ttl level now).get k level now').1 =
         Value.vnone) ∧
    (∀ (cm : CacheManager) (k : String) (e pe : CacheEntry) (now : Nat),
       assocFind cm.memory.store k = some e → e.value = Value.vnone →
       assocFind cm.fs (cacheFileName k) = some (FileData.good pe) →
       pe.is_expired now = false → pe.value.isNone = false →
       (cm.get k CacheLevel.both now).1 = pe.value ∧
       (cm.get k CacheLevel.both now).2.2 = true) ∧
    (∀ (msize : Nat) (fname : String) (f : List PyObj → Value)
       (args : List PyObj) (s : String) (ttl : Int) (level : CacheLevel)
       (now1 now2 : Nat),
       serializeArgs fname args = Except.ok s → f args = Value.vnone →
       (wrapperCall (CacheManager.init msize []) fname f args ttl level
         now1).2.2 = 1 ∧
       (wrapperCall (wrapperCall (CacheManager.init msize []) fname f args
         ttl level now1).2.1 fname f args ttl level now2).2.2 = 1) := by
  refine ⟨?_, ?_, ?_⟩
  · intro cm k ttl level now now' hinv
    apply managerGet_vnone_cached
    · intro hne
      cases level with
      | memory_only =>
        rw [managerSet_memory_only]
        right
        exact ⟨_, memorySet_find_self cm.memory k Value.vnone ttl now hinv, rfl⟩
      | persistent_only => exact absurd rfl hne
      | both =>
        rw [managerSet_both]
        right
        exact ⟨_, memorySet_find_self cm.memory k Value.vnone ttl now hinv, rfl⟩
    · intro hne
      cases level with
      | memory_only => exact absurd rfl hne
      | persistent_only =>
        rw [managerSet_persistent_only]
        right
        exact ⟨_, assocFind_assocSet_self _ (cacheFileName k) _, rfl⟩
      | both =>
        rw [managerSet_both]
        right
        exact ⟨_, assocFind_assocSet_self _ (cacheFileName k) _, rfl⟩
  · intro cm k e pe now hfm hvm hfp hexp hpv
    have hm : (cm.memory.get k now).1.isNone = true := by
      rw [memoryGet_vnone cm.memory k now e hfm hvm]
      rfl
    rw [managerGet_both_memmiss cm k now hm]
    have hval : (PersistentCache.get cm.fs k now).1 = pe.value := by
      rw [persistentGet_good_live cm.fs k now pe hfp hexp]
    rw [if_pos (by rw [hval]; exact hpv)]
    exact ⟨hval, rfl⟩
  · intro msize fname f args s ttl level now1 now2 hser hres
    have hinv : (CacheManager.init msize []).memory.Inv := by
      constructor
      · simp [CacheManager.init, MemoryCache.init]
      · simp [CacheManager.init, MemoryCache.init, assocKeys]
    have hg1 : ((CacheManager.init msize []).get (funcKey s) level now1).1 =
        Value.vnone := by
      apply managerGet_vnone_cached
      · intro hne
        left
        rfl
      · intro hne
        left
        rfl
    exact wrapper_vnone_reinvokes (CacheManager.init msize []) fname f args s
      ttl level now1 now2 hser hres hinv hg1

theorem none_indistinguishable_from_miss_witness :
    ((((CacheManager.init 4 []).set "k" Value.vnone none CacheLevel.both 0).get
        "k" CacheLevel.both 1).1 = Value.vnone) ∧
    (let cm : CacheManager :=
      ⟨⟨4, 3600, [("k", ⟨"k", Value.vnone, 0, 60, 0, 0⟩)], 0, 0, 0, 0⟩,
       ⟨86400⟩, [(cacheFileName "k", FileData.good ⟨"k", Value.vint 5, 0, 60, 0, 0⟩)]⟩
     (cm.get "k" CacheLevel.both 1).1 = Value.vint 5 ∧
     (cm.get "k" CacheLevel.both 1).2.2 = true) ∧
    (wrapperCall (CacheManager.init 4 []) "f" (fun _ => Value.vnone)
      [PyObj.pint 3] 60 CacheLevel.both 0).2.2 = 1 := by
  refine ⟨?_, ?_, ?_⟩
  · exact none_indistinguishable_from_miss.1 (CacheManager.init 4 []) "k" none
      CacheLevel.both 0 1 ⟨by decide, by decide⟩
  · have h := none_indistinguishable_from_miss.2.1
      ⟨⟨4, 3600, [("k", ⟨"k", Value.vnone, 0, 60, 0, 0⟩)], 0, 0, 0, 0⟩,
       ⟨86400⟩, [(cacheFileName "k", FileData.good ⟨"k", Value.vint 5, 0, 60, 0, 0⟩)]⟩
      "k" ⟨"k", Value.vnone, 0, 60, 0, 0⟩ ⟨"k", Value.vint 5, 0, 60, 0, 0⟩ 1
      (by decide) rfl (by decide) (by decide) (by decide)
    exact ⟨h.1, h.2⟩
  · exact (none_indistinguishable_from_miss.2.2 4 "f" (fun _ => Value.vnone)
      [PyObj.pint 3] "f,3" 60 CacheLevel.both 0 0 rfl rfl).1

/-! ### Tier promotion (C4) -/

theorem memoryGet_default_ttl (mc : MemoryCache) (k : String) (now : Nat) :
    (mc.get k now).2.default_ttl = mc.default_ttl := by
  cases hf : assocFind mc.store k with
  | none => simp [MemoryCache.get, hf]
  | some e =>
    by_cases hexp : e.is_expired now = true
    · simp [MemoryCache.get, hf, hexp]
    · rw [Bool.not_eq_true] at hexp
      simp [MemoryCache.get, hf, hexp]

/-- A tier-`both` lookup that misses memory and hits a live persistent
entry returns its value, promotes it into memory with memory's default
ttl stamped at lookup time, and rewrites the persistent file with bumped
access stats. -/
theorem managerGet_both_promotes (cm : CacheManager) (k : String) (now : Nat)
    (pe : CacheEntry)
    (hmabs : assocFind cm.memory.store k = none)
    (hfp : assocFind cm.fs (cacheFileName k) = some (FileData.good pe))
    (hexp : pe.is_expired now = false)
    (hpv : pe.value.isNone = false)
    (hinv : cm.memory.Inv) :
    (cm.get k CacheLevel.both now).1 = pe.value ∧
    assocFind (cm.get k CacheLevel.both now).2.1.memory.store k =
      some ⟨k, pe.value, now, cm.memory.default_ttl, 0, now⟩ ∧
    (cm.get k CacheLevel.both now).2.1.fs =
      assocSet cm.fs (cacheFileName k) (FileData.good (pe.bumpAccess now)) := by
  have hmm : (cm.memory.get k now).1.isNone = true := by
    rw [memoryGet_miss_none cm.memory k now hmabs]
    rfl
  have hpget := persistentGet_good_live cm.fs k now pe hfp hexp
  have hpv1 : (PersistentCache.get cm.fs k now).1 = pe.value := by rw [hpget]
  rw [managerGet_both_memmiss cm k now hmm, if_pos (by rw [hpv1]; exact hpv)]
  refine ⟨hpv1, ?_, ?_⟩
  · have hfind := memorySet_find_self (cm.memory.get k now).2 k
      (PersistentCache.get cm.fs k now).1 none now
      (get_inv cm.memory k now hinv).1
    simp only [Option.getD_none, memoryGet_default_ttl] at hfind
    rw [← hpv1]
    exact hfind
  · show (PersistentCache.get cm.fs k now).2 = _
    rw [hpget]

/-- C4 counterexample: store `None` persistently, then `get(k, both)` —
the lookup reports `None` and performs no promotion at all: the memory
tier is still empty afterwards, so no value was "written into MemoryCache". -/
theorem promotion_cex_none_value :
    ((((CacheManager.init 10 []).set "k" Value.vnone none
        CacheLevel.persistent_only 0).get "k" CacheLevel.both 0).2.1.memory.store
      = []) ∧
    ((((CacheManager.init 10 []).set "k" Value.vnone none
        CacheLevel.persistent_only 0).get "k" CacheLevel.both 0).1
      = Value.vnone) := by
  exact ⟨rfl, rfl⟩

/-- C4 (amended to non-`None` values): after a persistent-only `set`, a
tier-`both` `get` within the persistent entry's lifetime returns `v` and
promotes it into MemoryCache under MemoryCache's default ttl 3600 (not the
persistent entry's remaining ttl), timestamped at promotion time; a
subsequent memory-only `get` within that window returns `v` with the
persistent tier neither consulted nor modified. -/
theorem persistent_hit_promotes_with_default_ttl (msize : Nat) (fs0 : FS)
    (k : String) (v : Value) (now0 now1 now2 : Nat)
    (hv : v.isNone = false)
    (hlive : (now1 : Int) - (now0 : Int) ≤ 86400)
    (hwin : (now2 : Int) - (now1 : Int) ≤ 3600) :
    ((((CacheManager.init msize fs0).set k v none CacheLevel.persistent_only
        now0).get k CacheLevel.both now1).1 = v) ∧
    (∃ e, assocFind ((((CacheManager.init msize fs0).set k v none
        CacheLevel.persistent_only now0).get k CacheLevel.both
        now1).2.1.memory.store) k = some e ∧
      e.value = v ∧ e.ttl = 3600 ∧ e.timestamp = now1) ∧
    (((((CacheManager.init msize fs0).set k v none CacheLevel.persistent_only
        now0).get k CacheLevel.both now1).2.1.get k CacheLevel.memory_only
        now2).1 = v) ∧
    (((((CacheManager.init msize fs0).set k v none CacheLevel.persistent_only
        now0).get k CacheLevel.both now1).2.1.get k CacheLevel.memory_only
        now2).2.2 = false) ∧
    (((((CacheManager.init msize fs0).set k v none CacheLevel.persistent_only
        now0).get k CacheLevel.both now1).2.1.get k CacheLevel.memory_only
        now2).2.1.fs =
      (((CacheManager.init msize fs0).set k v none CacheLevel.persistent_only
        now0).get k CacheLevel.both now1).2.1.fs) := by
  have hexp0 : (⟨k, v, now0, 86400, 0, now0⟩ : CacheEntry).is_expired now1 =
      false := by
    simp only [CacheEntry.is_expired]
    rw [if_neg (by norm_num)]
    simp only [decide_eq_false_iff_not]
    omega
  have hset : (CacheManager.init msize fs0).set k v none
      CacheLevel.persistent_only now0 =
      ⟨MemoryCache.init msize 3600, ⟨86400⟩,
       assocSet fs0 (cacheFileName k)
         (FileData.good ⟨k, v, now0, 86400, 0, now0⟩)⟩ := by
    rw [managerSet_persistent_only]
    rfl
  rw [hset]
  have hprom := managerGet_both_promotes
    ⟨MemoryCache.init msize 3600, ⟨86400⟩,
     assocSet fs0 (cacheFileName k)
       (FileData.good ⟨k, v, now0, 86400, 0, now0⟩)⟩
    k now1 ⟨k, v, now0, 86400, 0, now0⟩ rfl
    (assocFind_assocSet_self fs0 (cacheFileName k) _) hexp0 hv
    ⟨by simp [MemoryCache.init], by simp [MemoryCache.init, assocKeys]⟩
  have hfind3600 : assocFind
      ((((⟨MemoryCache.init msize 3600, ⟨86400⟩,
          assocSet fs0 (cacheFileName k)
            (FileData.good ⟨k, v, now0, 86400, 0, now0⟩)⟩ : CacheManager)).get
        k CacheLevel.both now1).2.1.memory.store) k =
      some ⟨k, v, now1, 3600, 0, now1⟩ := hprom.2.1
  have hexp1 : (⟨k, v, now1, 3600, 0, now1⟩ : CacheEntry).is_expired now2 =
      false := by
    simp only [CacheEntry.is_expired]
    rw [if_neg (by norm_num)]
    simp only [decide_eq_false_iff_not]
    omega
  refine ⟨hprom.1, ⟨_, hfind3600, rfl, rfl, rfl⟩, ?_, ?_, ?_⟩
  · rw [managerGet_memory_only]
    simp only
    simp [MemoryCache.get, hfind3600, hexp1]
  · rw [managerGet_memory_only]
  · rw [managerGet_memory_only]

theorem persistent_hit_promotes_with_default_ttl_witness :
    ((((CacheManager.init 4 []).set "k" (Value.vint 7) none
        CacheLevel.persistent_only 0).get "k" CacheLevel.both 10).1 =
      Value.vint 7) ∧
    (((((CacheManager.init 4 []).set "k" (Value.vint 7) none
        CacheLevel.persistent_only 0).get "k" CacheLevel.both 10).2.1.get "k"
        CacheLevel.memory_only 20).1 = Value.vint 7) := by
  have h := persistent_hit_promotes_with_default_ttl 4 [] "k" (Value.vint 7)
    0 10 20 (by decide) (by decide) (by decide)
  exact ⟨h.1, h.2.2.1⟩

/-! ### Memoization idempotence (C5) -/

theorem funcKey_injective (s1 s2 : String) (h : funcKey s1 = funcKey s2) :
    s1 = s2 := by
  have hd : ("func:" : String).data ++ s1.data =
      ("func:" : String).data ++ s2.data := by
    rw [← String.data_append, ← String.data_append]
    exact congrArg String.data h
  exact String.ext (List.append_cancel_left hd)

theorem cacheFileName_injective (k1 k2 : String)
    (h : cacheFileName k1 = cacheFileName k2) : k1 = k2 := by
  have hd : k1.data ++ (".cache" : String).data =
      k2.data ++ (".cache" : String).data := by
    rw [← String.data_append, ← String.data_append]
    exact congrArg String.data h
  exact String.ext (List.append_cancel_right hd)

theorem assocFind_assocSet_ne {α : Type} (s : List (String × α))
    (k k' : String) (v : α) (h : k' ≠ k) :
    assocFind (assocSet s k' v) k = assocFind s k := by
  induction s with
  | nil => simp [assocSet, assocFind, h]
  | cons p rest ih =>
    by_cases hp : p.1 = k'
    · have hpk : ¬(p.1 = k) := by
        rw [hp]
        exact h
      simp [assocSet, assocFind, hp, h, hpk]
    · have hkk : ¬(k = k') := fun hc => h hc.symm
      by_cases hk : p.1 = k
      · simp [assocSet, assocFind, hp, hk, hkk]
      · simp [assocSet, assocFind, hp, hk, hkk, ih]

/-- C5 counterexample: a memoized callable that returns `None`, invoked
twice with the same argument at the same instant (well inside any TTL
window), runs the underlying callable twice — not "exactly once". -/
theorem memoize_cex_none_result :
    (wrapperCall (CacheManager.init 10 []) "f" (fun _ => Value.vnone)
      [PyObj.pint 1] 3600 CacheLevel.memory_only 0).2.2 = 1 ∧
    (wrapperCall (wrapperCall (CacheManager.init 10 []) "f"
        (fun _ => Value.vnone) [PyObj.pint 1] 3600 CacheLevel.memory_only
        0).2.1 "f" (fun _ => Value.vnone) [PyObj.pint 1] 3600
        CacheLevel.memory_only 0).2.2 = 1 := by
  exact ⟨rfl, rfl⟩

/-- C5 (amended to non-`None` results): for a memoized callable whose
arguments serialize successfully and whose result is not `None`, starting
from a fresh manager with memory capacity at least 2, calling twice with
identical arguments within the TTL window invokes the underlying callable
exactly once — the second call is served from cache; and calling with a
second argument tuple whose canonical serialization differs invokes the
callable again and leaves two independent cache entries, one per argument
tuple, in every tier the selected level writes. -/
theorem memoize_idempotent_nonnone (msize : Nat) (fname : String)
    (f : List PyObj → Value) (ttl : Int) (level : CacheLevel)
    (a b : List PyObj) (sa sb : String) (now1 now2 : Nat)
    (hmsize : 2 ≤ msize)
    (hsa : serializeArgs fname a = Except.ok sa)
    (hfa : (f a).isNone = false)
    (hwin : (now2 : Int) - (now1 : Int) ≤ ttl ∨ ttl ≤ 0) :
    ((wrapperCall (CacheManager.init msize []) fname f a ttl level now1).2.2 = 1 ∧
     (wrapperCall (wrapperCall (CacheManager.init msize []) fname f a ttl level now1).2.1
        fname f a ttl level now2).1 = Except.ok (f a) ∧
     (wrapperCall (wrapperCall (CacheManager.init msize []) fname f a ttl level now1).2.1
        fname f a ttl level now2).2.2 = 0) ∧
    (serializeArgs fname b = Except.ok sb → sa ≠ sb →
     ((wrapperCall (wrapperCall (CacheManager.init msize []) fname f a ttl level now1).2.1
        fname f b ttl level now2).2.2 = 1 ∧
      (level ≠ CacheLevel.persistent_only →
        (∃ ea, assocFind (wrapperCall (wrapperCall (CacheManager.init msize []) fname f a ttl
            level now1).2.1 fname f b ttl level now2).2.1.memory.store
            (funcKey sa) = some ea ∧ ea.value = f a) ∧
        (∃ eb, assocFind (wrapperCall (wrapperCall (CacheManager.init msize []) fname f a ttl
            level now1).2.1 fname f b ttl level now2).2.1.memory.store
            (funcKey sb) = some eb ∧ eb.value = f b)) ∧
      (level ≠ CacheLevel.memory_only →
        (∃ ea, assocFind (wrapperCall (wrapperCall (CacheManager.init msize []) fname f a ttl
            level now1).2.1 fname f b ttl level now2).2.1.fs
            (cacheFileName (funcKey sa)) = some (FileData.good ea) ∧ ea.value = f a) ∧
        (∃ eb, assocFind (wrapperCall (wrapperCall (CacheManager.init msize []) fname f a ttl
            level now1).2.1 fname f b ttl level now2).2.1.fs
            (cacheFileName (funcKey sb)) = some (FileData.good eb) ∧ eb.value = f b)))) := by
  have hexpEa : (⟨funcKey sa, f a, now1, ttl, 0, now1⟩ : CacheEntry).is_expired now2 = false := by
    simp only [CacheEntry.is_expired]
    by_cases ht : ttl ≤ 0
    · rw [if_pos ht]
    · rw [if_neg ht]
      simp only [decide_eq_false_iff_not]
      rcases hwin with hw | hw
      · omega
      · exact absurd hw ht
  have hg1 : ((CacheManager.init msize []).get (funcKey sa) level now1).1 = Value.vnone := by
    apply managerGet_vnone_cached <;> intro h0 <;> exact Or.inl rfl
  have hstep1 := wrapperCall_miss (CacheManager.init msize []) fname f a sa ttl level now1 hsa hg1
  cases level with
  | memory_only =>
    have hX : ((CacheManager.init msize []).get (funcKey sa) CacheLevel.memory_only now1).2.1 =
        ⟨⟨msize, 3600, [], 0, 1, 0, 0⟩, ⟨86400⟩, []⟩ := by
      rw [managerGet_memory_only]
      rfl
    have hcm1 : (wrapperCall (CacheManager.init msize []) fname f a ttl CacheLevel.memory_only now1).2.1 = ⟨⟨msize, 3600, [(funcKey sa, ⟨funcKey sa, f a, now1, ttl, 0, now1⟩)], 0, 1, 0, 0⟩, ⟨86400⟩, []⟩ := by
      rw [hstep1]
      show ((CacheManager.init msize []).get (funcKey sa) CacheLevel.memory_only now1).2.1.set
        (funcKey sa) (f a) (some ttl) CacheLevel.memory_only now1 = _
      rw [hX, managerSet_memory_only,
        memorySet_shape_room ((⟨⟨msize, 3600, [], 0, 1, 0, 0⟩, ⟨86400⟩, []⟩ : CacheManager)).memory (funcKey sa) (f a)
          (some ttl) now1 rfl (by show ¬(msize ≤ (0 : Nat)); omega)]
      rfl
    have hfind_a : assocFind [(funcKey sa, (⟨funcKey sa, f a, now1, ttl, 0, now1⟩ : CacheEntry))] (funcKey sa) =
        some ⟨funcKey sa, f a, now1, ttl, 0, now1⟩ := by
      simp [assocFind]
    have hgm : ((⟨⟨msize, 3600, [(funcKey sa, ⟨funcKey sa, f a, now1, ttl, 0, now1⟩)], 0, 1, 0, 0⟩, ⟨86400⟩, []⟩ : CacheManager).get (funcKey sa)
        CacheLevel.memory_only now2).1 = f a := by
      rw [managerGet_memory_only]
      show (((⟨⟨msize, 3600, [(funcKey sa, ⟨funcKey sa, f a, now1, ttl, 0, now1⟩)], 0, 1, 0, 0⟩, ⟨86400⟩, []⟩ : CacheManager)).memory.get (funcKey sa) now2).1 = f a
      simp [MemoryCache.get, hfind_a, hexpEa]
    have hgnone : ((⟨⟨msize, 3600, [(funcKey sa, ⟨funcKey sa, f a, now1, ttl, 0, now1⟩)], 0, 1, 0, 0⟩, ⟨86400⟩, []⟩ : CacheManager).get (funcKey sa)
        CacheLevel.memory_only now2).1.isNone = false := by
      rw [hgm]
      exact hfa
    have hstep2 := wrapperCall_hit ⟨⟨msize, 3600, [(funcKey sa, ⟨funcKey sa, f a, now1, ttl, 0, now1⟩)], 0, 1, 0, 0⟩, ⟨86400⟩, []⟩ fname f a sa ttl
      CacheLevel.memory_only now2 hsa hgnone
    refine ⟨⟨?_, ?_, ?_⟩, ?_⟩
    · rw [hstep1]
    · rw [hcm1, hstep2, hgm]
    · rw [hcm1, hstep2]
    · intro hsb hne
      have hkey : (funcKey sa) ≠ funcKey sb := fun hc => hne (funcKey_injective sa sb hc)
      have hfind_b : assocFind [(funcKey sa, (⟨funcKey sa, f a, now1, ttl, 0, now1⟩ : CacheEntry))] (funcKey sb) =
          none := by
        simp [assocFind, hkey]
      have hg2b : ((⟨⟨msize, 3600, [(funcKey sa, ⟨funcKey sa, f a, now1, ttl, 0, now1⟩)], 0, 1, 0, 0⟩, ⟨86400⟩, []⟩ : CacheManager).get (funcKey sb)
          CacheLevel.memory_only now2).1 = Value.vnone := by
        apply managerGet_vnone_cached
        · intro h0
          exact Or.inl hfind_b
        · intro hne2
          exact absurd rfl hne2
      have hstep2b := wrapperCall_miss ⟨⟨msize, 3600, [(funcKey sa, ⟨funcKey sa, f a, now1, ttl, 0, now1⟩)], 0, 1, 0, 0⟩, ⟨86400⟩, []⟩ fname f b sb ttl
        CacheLevel.memory_only now2 hsb hg2b
      have hYmem : (((⟨⟨msize, 3600, [(funcKey sa, ⟨funcKey sa, f a, now1, ttl, 0, now1⟩)], 0, 1, 0, 0⟩, ⟨86400⟩, []⟩ : CacheManager)).memory.get (funcKey sb) now2).2 =
          ⟨msize, 3600, [(funcKey sa, ⟨funcKey sa, f a, now1, ttl, 0, now1⟩)], 0, 2, 0, 0⟩ := by
        simp [MemoryCache.get, hfind_b]
      have hXb : ((⟨⟨msize, 3600, [(funcKey sa, ⟨funcKey sa, f a, now1, ttl, 0, now1⟩)], 0, 1, 0, 0⟩, ⟨86400⟩, []⟩ : CacheManager).get (funcKey sb)
          CacheLevel.memory_only now2).2.1 = ⟨⟨msize, 3600, [(funcKey sa, ⟨funcKey sa, f a, now1, ttl, 0, now1⟩)], 0, 2, 0, 0⟩, ⟨86400⟩, []⟩ := by
        rw [managerGet_memory_only, hYmem]
      have hmemfinal : (wrapperCall (⟨⟨msize, 3600, [(funcKey sa, ⟨funcKey sa, f a, now1, ttl, 0, now1⟩)], 0, 1, 0, 0⟩, ⟨86400⟩, []⟩) fname f b ttl
          CacheLevel.memory_only now2).2.1.memory = ⟨msize, 3600, [(funcKey sa, ⟨funcKey sa, f a, now1, ttl, 0, now1⟩), (funcKey sb, ⟨funcKey sb, f b, now2, ttl, 0, now2⟩)], 0, 2, 0, 0⟩ := by
        rw [hstep2b]
        show ((((⟨⟨msize, 3600, [(funcKey sa, ⟨funcKey sa, f a, now1, ttl, 0, now1⟩)], 0, 1, 0, 0⟩, ⟨86400⟩, []⟩ : CacheManager)).get (funcKey sb)
          CacheLevel.memory_only now2).2.1.set (funcKey sb) (f b) (some ttl)
          CacheLevel.memory_only now2).memory = _
        rw [hXb, managerSet_memory_only]
        show ((⟨⟨msize, 3600, [(funcKey sa, ⟨funcKey sa, f a, now1, ttl, 0, now1⟩)], 0, 2, 0, 0⟩, ⟨86400⟩, []⟩ : CacheManager)).memory.set (funcKey sb) (f b)
          (some ttl) now2 = _
        rw [memorySet_shape_room
          ((⟨⟨msize, 3600, [(funcKey sa, ⟨funcKey sa, f a, now1, ttl, 0, now1⟩)], 0, 2, 0, 0⟩, ⟨86400⟩, []⟩ : CacheManager)).memory (funcKey sb) (f b)
          (some ttl) now2 hfind_b (by show ¬(msize ≤ (1 : Nat)); omega)]
        rfl
      refine ⟨?_, ?_, ?_⟩
      · rw [hcm1, hstep2b]
      · intro h0
        constructor
        · refine ⟨⟨funcKey sa, f a, now1, ttl, 0, now1⟩, ?_, rfl⟩
          rw [hcm1, hmemfinal]
          simp [assocFind]
        · refine ⟨⟨funcKey sb, f b, now2, ttl, 0, now2⟩, ?_, rfl⟩
          rw [hcm1, hmemfinal]
          simp [assocFind, hkey]
      · intro hne2
        exact absurd rfl hne2
  | persistent_only =>
    have hpmiss1 : PersistentCache.get (CacheManager.init msize []).fs (funcKey sa) now1 =
        (Value.vnone, []) :=
      persistentGet_absent (CacheManager.init msize []).fs (funcKey sa) now1 rfl
    have hX : ((CacheManager.init msize []).get (funcKey sa) CacheLevel.persistent_only now1).2.1 =
        ⟨⟨msize, 3600, [], 0, 0, 0, 0⟩, ⟨86400⟩, []⟩ := by
      rw [managerGet_persistent_only, hpmiss1,
        if_neg (by simp [Value.isNone])]
      rfl
    have hcm1 : (wrapperCall (CacheManager.init msize []) fname f a ttl CacheLevel.persistent_only now1).2.1 = ⟨⟨msize, 3600, [], 0, 0, 0, 0⟩, ⟨86400⟩, [(cacheFileName (funcKey sa), FileData.good ⟨funcKey sa, f a, now1, ttl, 0, now1⟩)]⟩ := by
      rw [hstep1]
      show ((CacheManager.init msize []).get (funcKey sa) CacheLevel.persistent_only now1).2.1.set
        (funcKey sa) (f a) (some ttl) CacheLevel.persistent_only now1 = _
      rw [hX, managerSet_persistent_only]
      rfl
    have hfind_fa : assocFind [(cacheFileName (funcKey sa), FileData.good ⟨funcKey sa, f a, now1, ttl, 0, now1⟩)] (cacheFileName (funcKey sa)) =
        some (FileData.good ⟨funcKey sa, f a, now1, ttl, 0, now1⟩) := by
      simp [assocFind]
    have hpv2 : (PersistentCache.get ((⟨⟨msize, 3600, [], 0, 0, 0, 0⟩, ⟨86400⟩, [(cacheFileName (funcKey sa), FileData.good ⟨funcKey sa, f a, now1, ttl, 0, now1⟩)]⟩ : CacheManager)).fs (funcKey sa)
        now2).1 = f a := by
      rw [persistentGet_good_live _ (funcKey sa) now2 ⟨funcKey sa, f a, now1, ttl, 0, now1⟩ hfind_fa hexpEa]
    have hg2 : ((⟨⟨msize, 3600, [], 0, 0, 0, 0⟩, ⟨86400⟩, [(cacheFileName (funcKey sa), FileData.good ⟨funcKey sa, f a, now1, ttl, 0, now1⟩)]⟩ : CacheManager).get (funcKey sa)
        CacheLevel.persistent_only now2).1 = f a := by
      rw [managerGet_persistent_only, if_pos (by rw [hpv2]; exact hfa)]
      exact hpv2
    have hgnone : ((⟨⟨msize, 3600, [], 0, 0, 0, 0⟩, ⟨86400⟩, [(cacheFileName (funcKey sa), FileData.good ⟨funcKey sa, f a, now1, ttl, 0, now1⟩)]⟩ : CacheManager).get (funcKey sa)
        CacheLevel.persistent_only now2).1.isNone = false := by
      rw [hg2]
      exact hfa
    have hstep2 := wrapperCall_hit ⟨⟨msize, 3600, [], 0, 0, 0, 0⟩, ⟨86400⟩, [(cacheFileName (funcKey sa), FileData.good ⟨funcKey sa, f a, now1, ttl, 0, now1⟩)]⟩ fname f a sa ttl
      CacheLevel.persistent_only now2 hsa hgnone
    refine ⟨⟨?_, ?_, ?_⟩, ?_⟩
    · rw [hstep1]
    · rw [hcm1, hstep2, hg2]
    · rw [hcm1, hstep2]
    · intro hsb hne
      have hkey : (funcKey sa) ≠ funcKey sb := fun hc => hne (funcKey_injective sa sb hc)
      have hfile : (cacheFileName (funcKey sa)) ≠ cacheFileName (funcKey sb) :=
        fun hc => hkey (cacheFileName_injective _ _ hc)
      have hfind_fb : assocFind [(cacheFileName (funcKey sa), FileData.good ⟨funcKey sa, f a, now1, ttl, 0, now1⟩)] (cacheFileName (funcKey sb)) = none := by
        simp [assocFind, hfile]
      have hg2b : ((⟨⟨msize, 3600, [], 0, 0, 0, 0⟩, ⟨86400⟩, [(cacheFileName (funcKey sa), FileData.good ⟨funcKey sa, f a, now1, ttl, 0, now1⟩)]⟩ : CacheManager).get (funcKey sb)
          CacheLevel.persistent_only now2).1 = Value.vnone := by
        apply managerGet_vnone_cached
        · intro hne2
          exact absurd rfl hne2
        · intro h0
          exact Or.inl hfind_fb
      have hstep2b := wrapperCall_miss ⟨⟨msize, 3600, [], 0, 0, 0, 0⟩, ⟨86400⟩, [(cacheFileName (funcKey sa), FileData.good ⟨funcKey sa, f a, now1, ttl, 0, now1⟩)]⟩ fname f b sb ttl
        CacheLevel.persistent_only now2 hsb hg2b
      have hpmiss2 : PersistentCache.get ((⟨⟨msize, 3600, [], 0, 0, 0, 0⟩, ⟨86400⟩, [(cacheFileName (funcKey sa), FileData.good ⟨funcKey sa, f a, now1, ttl, 0, now1⟩)]⟩ : CacheManager)).fs (funcKey sb)
          now2 = (Value.vnone, [(cacheFileName (funcKey sa), FileData.good ⟨funcKey sa, f a, now1, ttl, 0, now1⟩)]) :=
        persistentGet_absent ((⟨⟨msize, 3600, [], 0, 0, 0, 0⟩, ⟨86400⟩, [(cacheFileName (funcKey sa), FileData.good ⟨funcKey sa, f a, now1, ttl, 0, now1⟩)]⟩ : CacheManager)).fs (funcKey sb) now2 hfind_fb
      have hXb : ((⟨⟨msize, 3600, [], 0, 0, 0, 0⟩, ⟨86400⟩, [(cacheFileName (funcKey sa), FileData.good ⟨funcKey sa, f a, now1, ttl, 0, now1⟩)]⟩ : CacheManager).get (funcKey sb)
          CacheLevel.persistent_only now2).2.1 = ⟨⟨msize, 3600, [], 0, 0, 0, 0⟩, ⟨86400⟩, [(cacheFileName (funcKey sa), FileData.good ⟨funcKey sa, f a, now1, ttl, 0, now1⟩)]⟩ := by
        rw [managerGet_persistent_only, hpmiss2,
          if_neg (by simp [Value.isNone])]
      have hfsfinal : (wrapperCall (⟨⟨msize, 3600, [], 0, 0, 0, 0⟩, ⟨86400⟩, [(cacheFileName (funcKey sa), FileData.good ⟨funcKey sa, f a, now1, ttl, 0, now1⟩)]⟩) fname f b ttl
          CacheLevel.persistent_only now2).2.1.fs =
          assocSet [(cacheFileName (funcKey sa), FileData.good ⟨funcKey sa, f a, now1, ttl, 0, now1⟩)] (cacheFileName (funcKey sb)) (FileData.good ⟨funcKey sb, f b, now2, ttl, 0, now2⟩) := by
        rw [hstep2b]
        show ((((⟨⟨msize, 3600, [], 0, 0, 0, 0⟩, ⟨86400⟩, [(cacheFileName (funcKey sa), FileData.good ⟨funcKey sa, f a, now1, ttl, 0, now1⟩)]⟩ : CacheManager)).get (funcKey sb)
          CacheLevel.persistent_only now2).2.1.set (funcKey sb) (f b) (some ttl)
          CacheLevel.persistent_only now2).fs = _
        rw [hXb, managerSet_persistent_only]
        rfl
      refine ⟨?_, ?_, ?_⟩
      · rw [hcm1, hstep2b]
      · intro hne2
        exact absurd rfl hne2
      · intro h0
        constructor
        · refine ⟨⟨funcKey sa, f a, now1, ttl, 0, now1⟩, ?_, rfl⟩
          rw [hcm1, hfsfinal, assocFind_assocSet_ne _ _ _ _ (Ne.symm hfile)]
          exact hfind_fa
        · refine ⟨⟨funcKey sb, f b, now2, ttl, 0, now2⟩, ?_, rfl⟩
          rw [hcm1, hfsfinal]
          exact assocFind_assocSet_self _ _ _
  | both =>
    have hm1 : ((CacheManager.init msize []).memory.get (funcKey sa) now1).1.isNone = true := by
      rw [memoryGet_miss_none (CacheManager.init msize []).memory (funcKey sa) now1 rfl]
      rfl
    have hpmiss1 : PersistentCache.get (CacheManager.init msize []).fs (funcKey sa) now1 =
        (Value.vnone, []) :=
      persistentGet_absent (CacheManager.init msize []).fs (funcKey sa) now1 rfl
    have hX : ((CacheManager.init msize []).get (funcKey sa) CacheLevel.both now1).2.1 =
        ⟨⟨msize, 3600, [], 0, 1, 0, 0⟩, ⟨86400⟩, []⟩ := by
      rw [managerGet_both_memmiss _ _ _ hm1, hpmiss1,
        if_neg (by simp [Value.isNone])]
      rfl
    have hcm1 : (wrapperCall (CacheManager.init msize []) fname f a ttl CacheLevel.both now1).2.1 = ⟨⟨msize, 3600, [(funcKey sa, ⟨funcKey sa, f a, now1, ttl, 0, now1⟩)], 0, 1, 0, 0⟩, ⟨86400⟩, [(cacheFileName (funcKey sa), FileData.good ⟨funcKey sa, f a, now1, ttl, 0, now1⟩)]⟩ := by
      rw [hstep1]
      show ((CacheManager.init msize []).get (funcKey sa) CacheLevel.both now1).2.1.set
        (funcKey sa) (f a) (some ttl) CacheLevel.both now1 = _
      rw [hX, managerSet_both,
        memorySet_shape_room ((⟨⟨msize, 3600, [], 0, 1, 0, 0⟩, ⟨86400⟩, []⟩ : CacheManager)).memory (funcKey sa) (f a)
          (some ttl) now1 rfl (by show ¬(msize ≤ (0 : Nat)); omega)]
      rfl
    have hfind_a : assocFind [(funcKey sa, (⟨funcKey sa, f a, now1, ttl, 0, now1⟩ : CacheEntry))] (funcKey sa) =
        some ⟨funcKey sa, f a, now1, ttl, 0, now1⟩ := by
      simp [assocFind]
    have hfind_fa : assocFind [(cacheFileName (funcKey sa), FileData.good ⟨funcKey sa, f a, now1, ttl, 0, now1⟩)] (cacheFileName (funcKey sa)) =
        some (FileData.good ⟨funcKey sa, f a, now1, ttl, 0, now1⟩) := by
      simp [assocFind]
    have hmget2 : (((⟨⟨msize, 3600, [(funcKey sa, ⟨funcKey sa, f a, now1, ttl, 0, now1⟩)], 0, 1, 0, 0⟩, ⟨86400⟩, [(cacheFileName (funcKey sa), FileData.good ⟨funcKey sa, f a, now1, ttl, 0, now1⟩)]⟩ : CacheManager)).memory.get (funcKey sa) now2).1 =
        f a := by
      simp [MemoryCache.get, hfind_a, hexpEa]
    have hmnone2 : (((⟨⟨msize, 3600, [(funcKey sa, ⟨funcKey sa, f a, now1, ttl, 0, now1⟩)], 0, 1, 0, 0⟩, ⟨86400⟩, [(cacheFileName (funcKey sa), FileData.good ⟨funcKey sa, f a, now1, ttl, 0, now1⟩)]⟩ : CacheManager)).memory.get (funcKey sa)
        now2).1.isNone = false := by
      rw [hmget2]
      exact hfa
    have hg2 : ((⟨⟨msize, 3600, [(funcKey sa, ⟨funcKey sa, f a, now1, ttl, 0, now1⟩)], 0, 1, 0, 0⟩, ⟨86400⟩, [(cacheFileName (funcKey sa), FileData.good ⟨funcKey sa, f a, now1, ttl, 0, now1⟩)]⟩ : CacheManager).get (funcKey sa) CacheLevel.both now2).1 =
        f a := by
      rw [managerGet_both_memhit _ _ _ hmnone2]
      exact hmget2
    have hgnone : ((⟨⟨msize, 3600, [(funcKey sa, ⟨funcKey sa, f a, now1, ttl, 0, now1⟩)], 0, 1, 0, 0⟩, ⟨86400⟩, [(cacheFileName (funcKey sa), FileData.good ⟨funcKey sa, f a, now1, ttl, 0, now1⟩)]⟩ : CacheManager).get (funcKey sa)
        CacheLevel.both now2).1.isNone = false := by
      rw [hg2]
      exact hfa
    have hstep2 := wrapperCall_hit ⟨⟨msize, 3600, [(funcKey sa, ⟨funcKey sa, f a, now1, ttl, 0, now1⟩)], 0, 1, 0, 0⟩, ⟨86400⟩, [(cacheFileName (funcKey sa), FileData.good ⟨funcKey sa, f a, now1, ttl, 0, now1⟩)]⟩ fname f a sa ttl
      CacheLevel.both now2 hsa hgnone
    refine ⟨⟨?_, ?_, ?_⟩, ?_⟩
    · rw [hstep1]
    · rw [hcm1, hstep2, hg2]
    · rw [hcm1, hstep2]
    · intro hsb hne
      have hkey : (funcKey sa) ≠ funcKey sb := fun hc => hne (funcKey_injective sa sb hc)
      have hfile : (cacheFileName (funcKey sa)) ≠ cacheFileName (funcKey sb) :=
        fun hc => hkey (cacheFileName_injective _ _ hc)
      have hfind_b : assocFind [(funcKey sa, (⟨funcKey sa, f a, now1, ttl, 0, now1⟩ : CacheEntry))] (funcKey sb) =
          none := by
        simp [assocFind, hkey]
      have hfind_fb : assocFind [(cacheFileName (funcKey sa), FileData.good ⟨funcKey sa, f a, now1, ttl, 0, now1⟩)] (cacheFileName (funcKey sb)) = none := by
        simp [assocFind, hfile]
      have hg2b : ((⟨⟨msize, 3600, [(funcKey sa, ⟨funcKey sa, f a, now1, ttl, 0, now1⟩)], 0, 1, 0, 0⟩, ⟨86400⟩, [(cacheFileName (funcKey sa), FileData.good ⟨funcKey sa, f a, now1, ttl, 0, now1⟩)]⟩ : CacheManager).get (funcKey sb)
          CacheLevel.both now2).1 = Value.vnone := by
        apply managerGet_vnone_cached
        · intro h0
          exact Or.inl hfind_b
        · intro h0
          exact Or.inl hfind_fb
      have hstep2b := wrapperCall_miss ⟨⟨msize, 3600, [(funcKey sa, ⟨funcKey sa, f a, now1, ttl, 0, now1⟩)], 0, 1, 0, 0⟩, ⟨86400⟩, [(cacheFileName (funcKey sa), FileData.good ⟨funcKey sa, f a, now1, ttl, 0, now1⟩)]⟩ fname f b sb ttl
        CacheLevel.both now2 hsb hg2b
      have hmB : (((⟨⟨msize, 3600, [(funcKey sa, ⟨funcKey sa, f a, now1, ttl, 0, now1⟩)], 0, 1, 0, 0⟩, ⟨86400⟩, [(cacheFileName (funcKey sa), FileData.good ⟨funcKey sa, f a, now1, ttl, 0, now1⟩)]⟩ : CacheManager)).memory.get (funcKey sb)
          now2).1.isNone = true := by
        rw [memoryGet_miss_none ((⟨⟨msize, 3600, [(funcKey sa, ⟨funcKey sa, f a, now1, ttl, 0, now1⟩)], 0, 1, 0, 0⟩, ⟨86400⟩, [(cacheFileName (funcKey sa), FileData.good ⟨funcKey sa, f a, now1, ttl, 0, now1⟩)]⟩ : CacheManager)).memory (funcKey sb) now2
          hfind_b]
        rfl
      have hYmem : (((⟨⟨msize, 3600, [(funcKey sa, ⟨funcKey sa, f a, now1, ttl, 0, now1⟩)], 0, 1, 0, 0⟩, ⟨86400⟩, [(cacheFileName (funcKey sa), FileData.good ⟨funcKey sa, f a, now1, ttl, 0, now1⟩)]⟩ : CacheManager)).memory.get (funcKey sb) now2).2 =
          ⟨msize, 3600, [(funcKey sa, ⟨funcKey sa, f a, now1, ttl, 0, now1⟩)], 0, 2, 0, 0⟩ := by
        simp [MemoryCache.get, hfind_b]
      have hpmiss2 : PersistentCache.get ((⟨⟨msize, 3600, [(funcKey sa, ⟨funcKey sa, f a, now1, ttl, 0, now1⟩)], 0, 1, 0, 0⟩, ⟨86400⟩, [(cacheFileName (funcKey sa), FileData.good ⟨funcKey sa, f a, now1, ttl, 0, now1⟩)]⟩ : CacheManager)).fs (funcKey sb)
          now2 = (Value.vnone, [(cacheFileName (funcKey sa), FileData.good ⟨funcKey sa, f a, now1, ttl, 0, now1⟩)]) :=
        persistentGet_absent ((⟨⟨msize, 3600, [(funcKey sa, ⟨funcKey sa, f a, now1, ttl, 0, now1⟩)], 0, 1, 0, 0⟩, ⟨86400⟩, [(cacheFileName (funcKey sa), FileData.good ⟨funcKey sa, f a, now1, ttl, 0, now1⟩)]⟩ : CacheManager)).fs (funcKey sb) now2 hfind_fb
      have hXb : ((⟨⟨msize, 3600, [(funcKey sa, ⟨funcKey sa, f a, now1, ttl, 0, now1⟩)], 0, 1, 0, 0⟩, ⟨86400⟩, [(cacheFileName (funcKey sa), FileData.good ⟨funcKey sa, f a, now1, ttl, 0, now1⟩)]⟩ : CacheManager).get (funcKey sb)
          CacheLevel.both now2).2.1 = ⟨⟨msize, 3600, [(funcKey sa, ⟨funcKey sa, f a, now1, ttl, 0, now1⟩)], 0, 2, 0, 0⟩, ⟨86400⟩, [(cacheFileName (funcKey sa), FileData.good ⟨funcKey sa, f a, now1, ttl, 0, now1⟩)]⟩ := by
        rw [managerGet_both_memmiss _ _ _ hmB, hpmiss2,
          if_neg (by simp [Value.isNone]), hYmem]
      have hmemfinal : (wrapperCall (⟨⟨msize, 3600, [(funcKey sa, ⟨funcKey sa, f a, now1, ttl, 0, now1⟩)], 0, 1, 0, 0⟩, ⟨86400⟩, [(cacheFileName (funcKey sa), FileData.good ⟨funcKey sa, f a, now1, ttl, 0, now1⟩)]⟩) fname f b ttl
          CacheLevel.both now2).2.1.memory = ⟨msize, 3600, [(funcKey sa, ⟨funcKey sa, f a, now1, ttl, 0, now1⟩), (funcKey sb, ⟨funcKey sb, f b, now2, ttl, 0, now2⟩)], 0, 2, 0, 0⟩ := by
        rw [hstep2b]
        show ((((⟨⟨msize, 3600, [(funcKey sa, ⟨funcKey sa, f a, now1, ttl, 0, now1⟩)], 0, 1, 0, 0⟩, ⟨86400⟩, [(cacheFileName (funcKey sa), FileData.good ⟨funcKey sa, f a, now1, ttl, 0, now1⟩)]⟩ : CacheManager)).get (funcKey sb) CacheLevel.both
          now2).2.1.set (funcKey sb) (f b) (some ttl) CacheLevel.both now2).memory = _
        rw [hXb, managerSet_both]
        show ((⟨⟨msize, 3600, [(funcKey sa, ⟨funcKey sa, f a, now1, ttl, 0, now1⟩)], 0, 2, 0, 0⟩, ⟨86400⟩, [(cacheFileName (funcKey sa), FileData.good ⟨funcKey sa, f a, now1, ttl, 0, now1⟩)]⟩ : CacheManager)).memory.set (funcKey sb)
          (f b) (some ttl) now2 = _
        rw [memorySet_shape_room
          ((⟨⟨msize, 3600, [(funcKey sa, ⟨funcKey sa, f a, now1, ttl, 0, now1⟩)], 0, 2, 0, 0⟩, ⟨86400⟩, [(cacheFileName (funcKey sa), FileData.good ⟨funcKey sa, f a, now1, ttl, 0, now1⟩)]⟩ : CacheManager)).memory (funcKey sb) (f b)
          (some ttl) now2 hfind_b (by show ¬(msize ≤ (1 : Nat)); omega)]
        rfl
      have hfsfinal : (wrapperCall (⟨⟨msize, 3600, [(funcKey sa, ⟨funcKey sa, f a, now1, ttl, 0, now1⟩)], 0, 1, 0, 0⟩, ⟨86400⟩, [(cacheFileName (funcKey sa), FileData.good ⟨funcKey sa, f a, now1, ttl, 0, now1⟩)]⟩) fname f b ttl
          CacheLevel.both now2).2.1.fs =
          assocSet [(cacheFileName (funcKey sa), FileData.good ⟨funcKey sa, f a, now1, ttl, 0, now1⟩)] (cacheFileName (funcKey sb)) (FileData.good ⟨funcKey sb, f b, now2, ttl, 0, now2⟩) := by
        rw [hstep2b]
        show ((((⟨⟨msize, 3600, [(funcKey sa, ⟨funcKey sa, f a, now1, ttl, 0, now1⟩)], 0, 1, 0, 0⟩, ⟨86400⟩, [(cacheFileName (funcKey sa), FileData.good ⟨funcKey sa, f a, now1, ttl, 0, now1⟩)]⟩ : CacheManager)).get (funcKey sb) CacheLevel.both
          now2).2.1.set (funcKey sb) (f b) (some ttl) CacheLevel.both now2).fs = _
        rw [hXb, managerSet_both]
        rfl
      refine ⟨?_, ?_, ?_⟩
      · rw [hcm1, hstep2b]
      · intro h0
        constructor
        · refine ⟨⟨funcKey sa, f a, now1, ttl, 0, now1⟩, ?_, rfl⟩
          rw [hcm1, hmemfinal]
          simp [assocFind]
        · refine ⟨⟨funcKey sb, f b, now2, ttl, 0, now2⟩, ?_, rfl⟩
          rw [hcm1, hmemfinal]
          simp [assocFind, hkey]
      · intro h0
        constructor
        · refine ⟨⟨funcKey sa, f a, now1, ttl, 0, now1⟩, ?_, rfl⟩
          rw [hcm1, hfsfinal, assocFind_assocSet_ne _ _ _ _ (Ne.symm hfile)]
          exact hfind_fa
        · refine ⟨⟨funcKey sb, f b, now2, ttl, 0, now2⟩, ?_, rfl⟩
          rw [hcm1, hfsfinal]
          exact assocFind_assocSet_self _ _ _


theorem memoize_idempotent_nonnone_witness :
    (wrapperCall (CacheManager.init 2 []) "g" (fun _ => Value.vint 7)
      [PyObj.pint 1] 60 CacheLevel.memory_only 0).2.2 = 1 ∧
    (wrapperCall (wrapperCall (CacheManager.init 2 []) "g"
        (fun _ => Value.vint 7) [PyObj.pint 1] 60 CacheLevel.memory_only
        0).2.1 "g" (fun _ => Value.vint 7) [PyObj.pint 1] 60
        CacheLevel.memory_only 0).2.2 = 0 ∧
    (wrapperCall (wrapperCall (CacheManager.init 2 []) "g"
        (fun _ => Value.vint 7) [PyObj.pint 1] 60 CacheLevel.memory_only
        0).2.1 "g" (fun _ => Value.vint 7) [PyObj.pint 2] 60
        CacheLevel.memory_only 0).2.2 = 1 := by
  have h := memoize_idempotent_nonnone 2 "g" (fun _ => Value.vint 7) 60
    CacheLevel.memory_only [PyObj.pint 1] [PyObj.pint 2] "g,1" "g,2" 0 0
    (by decide) rfl rfl (Or.inl (by decide))
  exact ⟨h.1.1, h.1.2.2, (h.2 rfl (by decide)).1⟩

end FRPCache
